import Mathlib

/-!
# Verification of the Hybrid Element Locator pipeline

Shallow embedding, in Lean, of the algorithmic core of the locator engine:

* `difflib.SequenceMatcher.ratio` (Python standard library), exactly as used
  by `OCRLocator._fuzzy_match` (`isjunk=None`, `autojunk=True`);
* the OCR result cache (`OCRCache.get` / `OCRCache.put`);
* the retry wrapper (`engine.utils.retry._make_wrapper`);
* result serialization (`LocatorResult.to_dict`);
* the region table and the fallback-region choice in `HybridLocator.locate`;
* the icon locator's cell-to-bounding-box arithmetic and its `locate` paths;
* candidate disambiguation (`HybridLocator._pick_best_match`);
* text search scoring and ranking (`OCRLocator.locate`).

Machine integers do not overflow in any of the embedded code paths (Python
integers are unbounded), so pixel arithmetic is modelled with `Int`/`Nat`,
and Python floats with `ℚ` (all the compared quantities are exact decimals
or ratios of integers).
-/

namespace Conu

/-! ## Python `difflib.SequenceMatcher` (with `isjunk=None`, `autojunk=True`)

`OCRLocator._fuzzy_match(target, text)` returns
`SequenceMatcher(None, target.lower(), text.lower()).ratio()`.
Strings are modelled as `List Char`.
-/

namespace Difflib

/-- Character of `s` at index `i`; all uses keep `i` in range. -/
def getC (s : List Char) (i : Nat) : Char := s.getD i ' '

/-- Indices at which character `c` occurs in `b`, in increasing order
(the `b2j[c]` occurrence list before the autojunk purge). -/
def occ (b : List Char) (c : Char) : List Nat :=
  (List.range b.length).filter (fun j => getC b j == c)

/-- The `b2j` mapping after `__chain_b`'s autojunk purge: when
`len(b) >= 200`, characters occurring more than `len(b) // 100 + 1` times
are "popular" and their occurrence lists are deleted.  (`isjunk` is `None`
throughout the repository, so `bjunk` is empty and is not modelled.) -/
def purgedB2j (b : List Char) (c : Char) : List Nat :=
  if 200 ≤ b.length ∧ b.length / 100 + 1 < b.count c then [] else occ b c

/-- `j2len.get(j, 0)` on the association list modelling the `j2len` dict. -/
def lookupD (l : List (Nat × Nat)) (j : Nat) : Nat :=
  ((l.find? (fun p => p.1 == j)).map Prod.snd).getD 0

/-- The chain length `k = j2len.get(j-1, 0) + 1` computed by the inner loop
of `find_longest_match` (Python's `j - 1` is `-1` when `j = 0`, and the
dict lookup then yields the default `0`). -/
def chainVal (old : List (Nat × Nat)) (j : Nat) : Nat :=
  (if j = 0 then 0 else lookupD old (j - 1)) + 1

/-- Inner loop of `find_longest_match`: for each `j` in `b2j[a[i]]`
(in increasing order), skip `j < blo`, stop at `j >= bhi`, otherwise set
`newj2len[j] = k` and update the best block `(besti, bestj, bestsize)`
when `k > bestsize`. -/
def innerLoop (old : List (Nat × Nat)) (blo bhi i : Nat) :
    List Nat → List (Nat × Nat) → Nat → Nat → Nat →
    List (Nat × Nat) × Nat × Nat × Nat
  | [], acc, bi, bj, bs => (acc, bi, bj, bs)
  | j :: js, acc, bi, bj, bs =>
    if j < blo then innerLoop old blo bhi i js acc bi bj bs
    else if bhi ≤ j then (acc, bi, bj, bs)
    else
      innerLoop old blo bhi i js ((j, chainVal old j) :: acc)
        (if bs < chainVal old j then i + 1 - chainVal old j else bi)
        (if bs < chainVal old j then j + 1 - chainVal old j else bj)
        (if bs < chainVal old j then chainVal old j else bs)

/-- Outer dynamic-programming loop of `find_longest_match`:
`for i in range(alo, ahi)`, run the inner loop and replace `j2len` with
`newj2len`.  `count` is the number of remaining iterations (`ahi - alo` at
the top call), `i` the current index. -/
def dpLoop (m : Char → List Nat) (blo bhi : Nat) (a : List Char) :
    Nat → Nat → List (Nat × Nat) → Nat → Nat → Nat → Nat × Nat × Nat
  | 0, _, _, bi, bj, bs => (bi, bj, bs)
  | count + 1, i, j2, bi, bj, bs =>
    match innerLoop j2 blo bhi i (m (getC a i)) [] bi bj bs with
    | (j2', bi', bj', bs') => dpLoop m blo bhi a count (i + 1) j2' bi' bj' bs'

/-- First extension loop of `find_longest_match`: extend the best block
backwards while `besti > alo and bestj > blo` and the preceding characters
match (the `isbjunk` test is vacuous since `bjunk` is empty).  The loop
decrements `besti` each iteration, so it is written by structural recursion
on `besti`; when `besti = 0` the guard `alo < besti` is false and the loop
exits, exactly as in the source. -/
def ext1 (a b : List Char) (alo blo : Nat) : Nat → Nat → Nat → Nat × Nat × Nat
  | 0, bj, bs => (0, bj, bs)
  | bi + 1, bj, bs =>
    if alo < bi + 1 ∧ blo < bj ∧ getC a bi == getC b (bj - 1) then
      ext1 a b alo blo bi (bj - 1) (bs + 1)
    else (bi + 1, bj, bs)

/-- Second extension loop of `find_longest_match` with an explicit
iteration budget: the loop runs while `besti + bestsize < ahi` (among other
guards), incrementing `bestsize`, so it makes exactly
`ahi - (besti + bestsize)` iterations at most; when the budget reaches `0`
the guard `bi + bs < ahi` is false as well, so the budgeted recursion
computes the same value as the unbounded loop. -/
def ext2F (a b : List Char) (ahi bhi bi bj : Nat) : Nat → Nat → Nat
  | 0, bs => bs
  | fuel + 1, bs =>
    if bi + bs < ahi ∧ bj + bs < bhi ∧ getC a (bi + bs) == getC b (bj + bs) then
      ext2F a b ahi bhi bi bj fuel (bs + 1)
    else bs

/-- Second extension loop of `find_longest_match`: extend the best block
forwards while the following characters match. -/
def ext2 (a b : List Char) (ahi bhi bi bj bs : Nat) : Nat :=
  ext2F a b ahi bhi bi bj (ahi - (bi + bs)) bs

/-- `SequenceMatcher.find_longest_match(alo, ahi, blo, bhi)`: the DP loop
followed by the two extension loops (the two junk extension loops never
fire because `isjunk` is `None`). -/
def flm (a b : List Char) (m : Char → List Nat) (alo ahi blo bhi : Nat) :
    Nat × Nat × Nat :=
  match dpLoop m blo bhi a (ahi - alo) alo [] alo blo 0 with
  | (bi, bj, bs) =>
    match ext1 a b alo blo bi bj bs with
    | (ei, ej, es) => (ei, ej, ext2 a b ahi bhi ei ej es)

/-- Invariant on the block returned by `find_longest_match`. -/
def FlmInv (alo ahi blo bhi : Nat) : Nat × Nat × Nat → Prop
  | (i, j, k) => alo ≤ i ∧ blo ≤ j ∧ (k = 0 ∨ (i + k ≤ ahi ∧ j + k ≤ bhi))

/-- Invariant on `j2len` entries after processing indices `< i`. -/
def EntInv (alo blo bhi i : Nat) (l : List (Nat × Nat)) : Prop :=
  ∀ j k, (j, k) ∈ l → blo ≤ j ∧ j < bhi ∧ k + blo ≤ j + 1 ∧ k + alo ≤ i

/-- Invariant on the running best block during the DP loop. -/
def BestInv (alo ahi blo bhi : Nat) : Nat × Nat × Nat → Prop
  | (bi, bj, bs) =>
    (bi = alo ∧ bj = blo ∧ bs = 0) ∨
      (alo ≤ bi ∧ bi + bs ≤ ahi ∧ blo ≤ bj ∧ bj + bs ≤ bhi ∧ 1 ≤ bs)

theorem lookupD_cases (l : List (Nat × Nat)) (j : Nat) :
    lookupD l j = 0 ∨ (j, lookupD l j) ∈ l := by
  unfold lookupD
  cases hf : l.find? (fun p => p.1 == j) with
  | none => left; rfl
  | some p =>
    right
    have hp := List.find?_some hf
    have hm := List.mem_of_find?_eq_some hf
    have : p.1 = j := by simpa using hp
    simpa [← this] using hm

theorem innerLoop_inv {alo ahi blo bhi i : Nat} (old : List (Nat × Nat))
    (hold : EntInv alo blo bhi i old) (hi : alo ≤ i) (hia : i < ahi) :
    ∀ (js : List Nat) (acc : List (Nat × Nat)) (bi bj bs : Nat),
      EntInv alo blo bhi (i + 1) acc → BestInv alo ahi blo bhi (bi, bj, bs) →
      EntInv alo blo bhi (i + 1) (innerLoop old blo bhi i js acc bi bj bs).1 ∧
        BestInv alo ahi blo bhi (innerLoop old blo bhi i js acc bi bj bs).2 := by
  intro js
  induction js with
  | nil => intro acc bi bj bs hacc hbest; exact ⟨hacc, hbest⟩
  | cons j js ih =>
    intro acc bi bj bs hacc hbest
    by_cases h1 : j < blo
    · simpa [innerLoop, h1] using ih acc bi bj bs hacc hbest
    · by_cases h2 : bhi ≤ j
      · simpa [innerLoop, h1, h2] using ⟨hacc, hbest⟩
      · have hblo : blo ≤ j := Nat.le_of_not_lt h1
        have hbhi : j < bhi := Nat.lt_of_not_le h2
        -- bounds for the freshly computed chain length
        have hk : chainVal old j + blo ≤ j + 1 ∧ chainVal old j + alo ≤ i + 1 := by
          unfold chainVal
          by_cases hj0 : j = 0
          · subst hj0
            simp only [if_true, eq_self_iff_true]
            omega
          · simp only [if_neg hj0]
            rcases lookupD_cases old (j - 1) with hz | hmem
            · omega
            · have := hold _ _ hmem
              omega
        rw [innerLoop]
        simp only [if_neg h1, if_neg h2]
        apply ih
        · intro j' k' hp
          rcases List.mem_cons.mp hp with hpj | hpa
          · have hj' : j' = j := congrArg Prod.fst hpj
            have hk' : k' = chainVal old j := congrArg Prod.snd hpj
            exact ⟨by omega, by omega, by omega, by omega⟩
          · exact hacc j' k' hpa
        · simp only [BestInv] at hbest ⊢
          by_cases hup : bs < chainVal old j
          · simp only [if_pos hup]
            exact Or.inr ⟨by omega, by omega, by omega, by omega, by omega⟩
          · simp only [if_neg hup]
            exact hbest

theorem dpLoop_inv {alo ahi blo bhi : Nat} (m : Char → List Nat) (a : List Char) :
    ∀ (count i : Nat) (j2 : List (Nat × Nat)) (bi bj bs : Nat),
      alo ≤ i → count ≤ ahi - i → EntInv alo blo bhi i j2 →
      BestInv alo ahi blo bhi (bi, bj, bs) →
      BestInv alo ahi blo bhi (dpLoop m blo bhi a count i j2 bi bj bs) := by
  intro count
  induction count with
  | zero => intro i j2 bi bj bs _ _ _ hbest; simpa [dpLoop] using hbest
  | succ c ih =>
    intro i j2 bi bj bs hi hcount hj2 hbest
    rw [dpLoop]
    have h := @innerLoop_inv alo ahi blo bhi i j2 hj2 hi (by omega)
      (m (getC a i)) [] bi bj bs (by intro j' k' hp; cases hp) hbest
    rcases hs : innerLoop j2 blo bhi i (m (getC a i)) [] bi bj bs
      with ⟨j2', bi', bj', bs'⟩
    rw [hs] at h
    exact ih (i + 1) j2' bi' bj' bs' (by omega) (by omega) h.1 h.2

theorem ext1_inv {alo ahi blo bhi : Nat} (a b : List Char) :
    ∀ (bi bj bs : Nat),
      BestInv alo ahi blo bhi (bi, bj, bs) →
      BestInv alo ahi blo bhi (ext1 a b alo blo bi bj bs) := by
  intro bi
  induction bi with
  | zero => intro bj bs hbest; exact hbest
  | succ bi ih =>
    intro bj bs hbest
    rw [ext1]
    by_cases h : alo < bi + 1 ∧ blo < bj ∧ getC a bi == getC b (bj - 1)
    · rw [if_pos h]
      have ha := h.1
      have hb' := h.2.1
      apply ih
      simp only [BestInv] at hbest ⊢
      rcases hbest with ⟨hz1, hz2, hz3⟩ | ⟨h1, h2, h3, h4, h5⟩
      · exact Or.inr ⟨by omega, by omega, by omega, by omega, by omega⟩
      · exact Or.inr ⟨by omega, by omega, by omega, by omega, by omega⟩
    · rw [if_neg h]
      exact hbest

theorem ext2F_inv {alo blo : Nat} (a b : List Char) (ahi bhi : Nat) :
    ∀ (fuel bi bj bs : Nat),
      BestInv alo ahi blo bhi (bi, bj, bs) →
      BestInv alo ahi blo bhi (bi, bj, ext2F a b ahi bhi bi bj fuel bs) := by
  intro fuel
  induction fuel with
  | zero => intro bi bj bs hbest; exact hbest
  | succ n ih =>
    intro bi bj bs hbest
    rw [ext2F]
    by_cases h : bi + bs < ahi ∧ bj + bs < bhi ∧
        getC a (bi + bs) == getC b (bj + bs)
    · rw [if_pos h]
      have ha := h.1
      have hb' := h.2.1
      apply ih
      simp only [BestInv] at hbest ⊢
      rcases hbest with ⟨hz1, hz2, hz3⟩ | ⟨h1, h2, h3, h4, h5⟩
      · exact Or.inr ⟨by omega, by omega, by omega, by omega, by omega⟩
      · exact Or.inr ⟨by omega, by omega, by omega, by omega, by omega⟩
    · rw [if_neg h]
      exact hbest

theorem ext2_inv {alo blo : Nat} (a b : List Char) (ahi bhi : Nat)
    (bi bj bs : Nat) (hbest : BestInv alo ahi blo bhi (bi, bj, bs)) :
    BestInv alo ahi blo bhi (bi, bj, ext2 a b ahi bhi bi bj bs) :=
  ext2F_inv a b ahi bhi (ahi - (bi + bs)) bi bj bs hbest

theorem flm_inv (a b : List Char) (m : Char → List Nat) (alo ahi blo bhi : Nat) :
    FlmInv alo ahi blo bhi (flm a b m alo ahi blo bhi) := by
  have hdp : BestInv alo ahi blo bhi
      (dpLoop m blo bhi a (ahi - alo) alo [] alo blo 0) := by
    apply dpLoop_inv m a (ahi - alo) alo [] alo blo 0 (Nat.le_refl alo)
      (Nat.le_refl _) (by intro j' k' hp; cases hp)
    simp [BestInv]
  rcases hd : dpLoop m blo bhi a (ahi - alo) alo [] alo blo 0 with ⟨bi, bj, bs⟩
  rw [hd] at hdp
  have he1 : BestInv alo ahi blo bhi (ext1 a b alo blo bi bj bs) :=
    ext1_inv a b bi bj bs hdp
  rcases he : ext1 a b alo blo bi bj bs with ⟨ei, ej, es⟩
  rw [he] at he1
  have he2 : BestInv alo ahi blo bhi (ei, ej, ext2 a b ahi bhi ei ej es) :=
    ext2_inv a b ahi bhi ei ej es he1
  have hgoal : flm a b m alo ahi blo bhi = (ei, ej, ext2 a b ahi bhi ei ej es) := by
    unfold flm
    simp only [hd, he]
  rw [hgoal]
  simp only [BestInv] at he2
  simp only [FlmInv]
  rcases he2 with hz | hb
  · exact ⟨by omega, by omega, Or.inl (by omega)⟩
  · exact ⟨by omega, by omega, Or.inr ⟨by omega, by omega⟩⟩

/-- Total size of the matching blocks found by `get_matching_blocks`, with
an explicit recursion budget.  The sum of the block sizes is the only
aspect of the block list that `ratio` uses; the queue order, the final sort
and the adjacent-block collapsing do not change the sum.  Each recursive
call strictly decreases `(ahi - alo) + (bhi - blo)` (by `flm_inv`), so with
a budget of at least that measure the budgeted recursion computes the same
value as the unbounded one (`matchTotalF_fuel` below). -/
def matchTotalF (a b : List Char) (m : Char → List Nat) :
    Nat → Nat → Nat → Nat → Nat → Nat
  | 0, _, _, _, _ => 0
  | fuel + 1, alo, ahi, blo, bhi =>
    match flm a b m alo ahi blo bhi with
    | (i, j, k) =>
      if k = 0 then 0
      else
        (if alo < i ∧ blo < j then matchTotalF a b m fuel alo i blo j else 0)
        + k +
        (if i + k < ahi ∧ j + k < bhi then
          matchTotalF a b m fuel (i + k) ahi (j + k) bhi else 0)

/-- Total size of the matching blocks of `get_matching_blocks` over
`a[alo:ahi]` and `b[blo:bhi]`. -/
def matchTotal (a b : List Char) (m : Char → List Nat)
    (alo ahi blo bhi : Nat) : Nat :=
  matchTotalF a b m ((ahi - alo) + (bhi - blo)) alo ahi blo bhi

/-- The budget of `matchTotalF` is irrelevant once it covers the measure
`(ahi - alo) + (bhi - blo)`: the budgeted recursion equals the unbounded
recursion of the source. -/
theorem matchTotalF_fuel (a b : List Char) (m : Char → List Nat) :
    ∀ (f1 f2 alo ahi blo bhi : Nat),
      (ahi - alo) + (bhi - blo) ≤ f1 → (ahi - alo) + (bhi - blo) ≤ f2 →
      matchTotalF a b m f1 alo ahi blo bhi = matchTotalF a b m f2 alo ahi blo bhi := by
  intro f1
  induction f1 with
  | zero =>
    intro f2 alo ahi blo bhi hm1 _
    have hinv := flm_inv a b m alo ahi blo bhi
    rcases hr : flm a b m alo ahi blo bhi with ⟨i, j, k⟩
    rw [hr] at hinv
    simp only [FlmInv] at hinv
    have hk : k = 0 := by omega
    cases f2 with
    | zero => rfl
    | succ f2 =>
      rw [matchTotalF, matchTotalF]
      simp only [hr]
      rw [if_pos hk]
  | succ f1 ih =>
    intro f2 alo ahi blo bhi hm1 hm2
    have hinv := flm_inv a b m alo ahi blo bhi
    rcases hr : flm a b m alo ahi blo bhi with ⟨i, j, k⟩
    rw [hr] at hinv
    simp only [FlmInv] at hinv
    cases f2 with
    | zero =>
      have hk : k = 0 := by omega
      rw [matchTotalF, matchTotalF]
      simp only [hr]
      rw [if_pos hk]
    | succ f2 =>
      rw [matchTotalF, matchTotalF]
      simp only [hr]
      by_cases hk : k = 0
      · rw [if_pos hk, if_pos hk]
      · rw [if_neg hk, if_neg hk]
        have hrec1 : (if alo < i ∧ blo < j then matchTotalF a b m f1 alo i blo j else 0)
            = (if alo < i ∧ blo < j then matchTotalF a b m f2 alo i blo j else 0) := by
          by_cases hc : alo < i ∧ blo < j
          · rw [if_pos hc, if_pos hc, ih f2 alo i blo j (by omega) (by omega)]
          · rw [if_neg hc, if_neg hc]
        have hrec2 : (if i + k < ahi ∧ j + k < bhi then
              matchTotalF a b m f1 (i + k) ahi (j + k) bhi else 0)
            = (if i + k < ahi ∧ j + k < bhi then
              matchTotalF a b m f2 (i + k) ahi (j + k) bhi else 0) := by
          by_cases hc : i + k < ahi ∧ j + k < bhi
          · rw [if_pos hc, if_pos hc, ih f2 (i + k) ahi (j + k) bhi (by omega) (by omega)]
          · rw [if_neg hc, if_neg hc]
        rw [hrec1, hrec2]

/-- The total matched size is at most the length of either searched slice:
the matching blocks are disjoint in `a` and in `b`. -/
theorem matchTotalF_le (a b : List Char) (m : Char → List Nat) :
    ∀ (fuel alo ahi blo bhi : Nat),
      matchTotalF a b m fuel alo ahi blo bhi ≤ ahi - alo ∧
        matchTotalF a b m fuel alo ahi blo bhi ≤ bhi - blo := by
  intro fuel
  induction fuel with
  | zero =>
    intro alo ahi blo bhi
    rw [matchTotalF]
    omega
  | succ f ih =>
    intro alo ahi blo bhi
    have hinv := flm_inv a b m alo ahi blo bhi
    rcases hr : flm a b m alo ahi blo bhi with ⟨i, j, k⟩
    rw [hr] at hinv
    simp only [FlmInv] at hinv
    rw [matchTotalF]
    simp only [hr]
    by_cases hk : k = 0
    · rw [if_pos hk]
      omega
    · rw [if_neg hk]
      have hbound : i + k ≤ ahi ∧ j + k ≤ bhi := by
        rcases hinv.2.2 with h0 | hb
        · exact absurd h0 hk
        · exact hb
      have hl : (if alo < i ∧ blo < j then matchTotalF a b m f alo i blo j else 0)
          ≤ i - alo ∧
          (if alo < i ∧ blo < j then matchTotalF a b m f alo i blo j else 0)
          ≤ j - blo := by
        by_cases hc : alo < i ∧ blo < j
        · rw [if_pos hc]; exact ih alo i blo j
        · rw [if_neg hc]; omega
      have hr2 : (if i + k < ahi ∧ j + k < bhi then
            matchTotalF a b m f (i + k) ahi (j + k) bhi else 0) ≤ ahi - (i + k) ∧
          (if i + k < ahi ∧ j + k < bhi then
            matchTotalF a b m f (i + k) ahi (j + k) bhi else 0) ≤ bhi - (j + k) := by
        by_cases hc : i + k < ahi ∧ j + k < bhi
        · rw [if_pos hc]; exact ih (i + k) ahi (j + k) bhi
        · rw [if_neg hc]; omega
      have h1 := hinv.1
      have h2 := hinv.2.1
      omega

/-- `SequenceMatcher.ratio()`: `2.0 * matches / (len(a) + len(b))`, and
`1.0` when both sequences are empty (`_calculate_ratio`). -/
def pyRatio (a b : List Char) : ℚ :=
  if a.length + b.length = 0 then 1
  else (2 * (matchTotal a b (purgedB2j b) 0 a.length 0 b.length : ℚ)) /
    ((a.length : ℚ) + (b.length : ℚ))

/-- The ratio is bounded: `0 ≤ ratio(a, b) ≤ 1`. -/
theorem pyRatio_bounds (a b : List Char) : 0 ≤ pyRatio a b ∧ pyRatio a b ≤ 1 := by
  unfold pyRatio
  by_cases h0 : a.length + b.length = 0
  · rw [if_pos h0]
    norm_num
  · rw [if_neg h0]
    have hM := matchTotalF_le a b (purgedB2j b)
      ((a.length - 0) + (b.length - 0)) 0 a.length 0 b.length
    have hMle : 2 * matchTotal a b (purgedB2j b) 0 a.length 0 b.length ≤
        a.length + b.length := by
      unfold matchTotal
      omega
    have hden : (0 : ℚ) < (a.length : ℚ) + (b.length : ℚ) := by
      have : 0 < a.length + b.length := Nat.pos_of_ne_zero h0
      exact_mod_cast this
    constructor
    · apply div_nonneg _ hden.le
      positivity
    · rw [div_le_one hden]
      have := hMle
      exact_mod_cast this

/-- Lower-casing of a Python string (`str.lower`), character by character. -/
def lowerStr (s : List Char) : List Char := s.map Char.toLower

/-- `OCRLocator._fuzzy_match(target, text)`:
`SequenceMatcher(None, target.lower(), text.lower()).ratio()`. -/
def fuzzyMatch (target text : List Char) : ℚ :=
  pyRatio (lowerStr target) (lowerStr text)

/-! ### Reflexivity: `ratio(b, b) = 1`

When both sequences are the same string `b`, the DP loop's running best
block always lies on the diagonal, and the extension loops then stretch it
to the whole string.  The autojunk purge can hide characters from `b2j`,
but a hidden character only shortens the diagonal chains; it never lets an
off-diagonal chain overtake the diagonal one. -/

/-- `j` is a live index of `b`: it survives the autojunk purge for its own
character, i.e. `j ∈ b2j[b[j]]`. -/
def np (b : List Char) (j : Nat) : Prop := j ∈ purgedB2j b (getC b j)

instance npDecidable (b : List Char) (j : Nat) : Decidable (np b j) := by
  unfold np
  infer_instance

/-- Length of the run of consecutive live indices ending at `j`. -/
def runLen (b : List Char) : Nat → Nat
  | 0 => if np b 0 then 1 else 0
  | j + 1 => if np b (j + 1) then runLen b j + 1 else 0

theorem occ_mem (b : List Char) (c : Char) (j : Nat) :
    j ∈ occ b c ↔ j < b.length ∧ getC b j = c := by
  unfold occ
  rw [List.mem_filter, List.mem_range]
  simp only [beq_iff_eq]

theorem purged_sub {b : List Char} {c : Char} {j : Nat}
    (h : j ∈ purgedB2j b c) : j ∈ occ b c := by
  unfold purgedB2j at h
  by_cases hc : 200 ≤ b.length ∧ b.length / 100 + 1 < b.count c
  · rw [if_pos hc] at h
    cases h
  · rwa [if_neg hc] at h

theorem purged_eq_occ {b : List Char} {c : Char} {j : Nat}
    (h : j ∈ purgedB2j b c) : purgedB2j b c = occ b c := by
  unfold purgedB2j at h ⊢
  by_cases hc : 200 ≤ b.length ∧ b.length / 100 + 1 < b.count c
  · rw [if_pos hc] at h
    cases h
  · rw [if_neg hc]

theorem np_of_mem {b : List Char} {c : Char} {j : Nat}
    (h : j ∈ purgedB2j b c) : np b j := by
  have hocc := (occ_mem b c j).mp (purged_sub h)
  unfold np
  rw [hocc.2]
  exact h

theorem np_diag_of_mem {b : List Char} {i j : Nat} (hi : i < b.length)
    (h : j ∈ purgedB2j b (getC b i)) : np b i := by
  unfold np
  rw [purged_eq_occ h]
  exact (occ_mem b (getC b i) i).mpr ⟨hi, rfl⟩

theorem purged_lt {b : List Char} {c : Char} {j : Nat}
    (h : j ∈ purgedB2j b c) : j < b.length :=
  ((occ_mem b c j).mp (purged_sub h)).1

theorem purged_pairwise (b : List Char) (c : Char) :
    List.Pairwise (· < ·) (purgedB2j b c) := by
  unfold purgedB2j
  by_cases hc : 200 ≤ b.length ∧ b.length / 100 + 1 < b.count c
  · rw [if_pos hc]
    exact List.Pairwise.nil
  · rw [if_neg hc]
    exact List.Pairwise.filter _ (List.pairwise_lt_range b.length)

theorem runLen_pos {b : List Char} {j : Nat} (h : np b j) : 1 ≤ runLen b j := by
  cases j with
  | zero => rw [runLen, if_pos h]
  | succ t => rw [runLen, if_pos h]; omega

theorem runLen_eq_zero {b : List Char} {j : Nat} (h : ¬ np b j) :
    runLen b j = 0 := by
  cases j with
  | zero => rw [runLen, if_neg h]
  | succ t => rw [runLen, if_neg h]

theorem lookupD_cons_self (l : List (Nat × Nat)) (j k : Nat) :
    lookupD ((j, k) :: l) j = k := by
  unfold lookupD
  rw [List.find?_cons_of_pos _ (by simp)]
  rfl

theorem lookupD_cons_ne (l : List (Nat × Nat)) (j k a : Nat) (h : j ≠ a) :
    lookupD ((j, k) :: l) a = lookupD l a := by
  unfold lookupD
  rw [List.find?_cons_of_neg _ (by simpa using h)]

theorem chainVal_le_prev {old : List (Nat × Nat)} {prev : Nat} (j : Nat)
    (hold : ∀ j' k, (j', k) ∈ old → k ≤ prev) : chainVal old j ≤ prev + 1 := by
  unfold chainVal
  by_cases hj : j = 0
  · rw [if_pos hj]
    omega
  · rw [if_neg hj]
    rcases lookupD_cases old (j - 1) with h0 | hm
    · omega
    · have := hold _ _ hm
      omega

theorem chainVal_le_run {b : List Char} {old : List (Nat × Nat)} {j : Nat}
    (hold : ∀ j' k, (j', k) ∈ old → k ≤ runLen b j') (hnp : np b j) :
    chainVal old j ≤ runLen b j := by
  cases j with
  | zero =>
    rw [show chainVal old 0 = 1 from rfl, runLen, if_pos hnp]
  | succ t =>
    rw [show chainVal old (t + 1) = lookupD old t + 1 from rfl,
      runLen, if_pos hnp]
    rcases lookupD_cases old t with h0 | hm
    · omega
    · have := hold _ _ hm
      omega

theorem chainVal_le_runI {b : List Char} {old : List (Nat × Nat)} {i : Nat}
    (j : Nat) (hnp : np b i)
    (hold : ∀ j' k, (j', k) ∈ old → k + 1 ≤ runLen b i) :
    chainVal old j ≤ runLen b i := by
  unfold chainVal
  have hpos := runLen_pos hnp
  by_cases hj : j = 0
  · rw [if_pos hj]
    omega
  · rw [if_neg hj]
    rcases lookupD_cases old (j - 1) with h0 | hm
    · omega
    · have := hold _ _ hm
      omega

theorem diag_le_chainVal {b : List Char} {old : List (Nat × Nat)} {i : Nat}
    (hnp : np b i)
    (hex : ∀ t, i = t + 1 → np b t → runLen b t ≤ lookupD old t) :
    runLen b i ≤ chainVal old i := by
  cases i with
  | zero =>
    rw [show chainVal old 0 = 1 from rfl, runLen, if_pos hnp]
  | succ t =>
    rw [show chainVal old (t + 1) = lookupD old t + 1 from rfl,
      runLen, if_pos hnp]
    by_cases hnt : np b t
    · have := hex t rfl hnt
      omega
    · have h0 := runLen_eq_zero hnt
      omega

/-- One full inner-loop pass over `b2j[b[i]]` with both sequences equal to
`b` and the full search window: the best block stays on the diagonal, its
size catches up with the live run ending at `i`, and the fresh `j2len`
entries are bounded by the runs at their own index and at `i`. -/
theorem innerRefl {b : List Char} {i : Nat} (hi : i < b.length)
    (old : List (Nat × Nat))
    (holdR : ∀ j k, (j, k) ∈ old → k ≤ runLen b j)
    (holdP : np b i → ∀ j k, (j, k) ∈ old → k + 1 ≤ runLen b i)
    (holdD : ∀ t, i = t + 1 → np b t → runLen b t ≤ lookupD old t) :
    ∀ (js : List Nat) (acc : List (Nat × Nat)) (d bs : Nat),
      (∀ j, j ∈ js → j ∈ purgedB2j b (getC b i)) →
      List.Pairwise (· < ·) js →
      (∀ t, t < i → runLen b t ≤ bs) →
      (np b i → i ∈ js ∨ (runLen b i ≤ bs ∧ runLen b i ≤ lookupD acc i)) →
      (∀ j k, (j, k) ∈ acc → k ≤ runLen b j ∧ k ≤ runLen b i) →
      ∃ acc' d' s',
        innerLoop old 0 b.length i js acc d d bs = (acc', d', d', s') ∧
        (∀ t, t < i + 1 → runLen b t ≤ s') ∧
        (np b i → runLen b i ≤ lookupD acc' i) ∧
        (∀ j k, (j, k) ∈ acc' → k ≤ runLen b j ∧ k ≤ runLen b i) := by
  intro js
  induction js with
  | nil =>
    intro acc d bs _ _ hB hD hC
    refine ⟨acc, d, bs, rfl, ?_, ?_, hC⟩
    · intro t ht
      by_cases hti : t < i
      · exact hB t hti
      · have : t = i := by omega
        subst this
        by_cases hnp : np b t
        · rcases hD hnp with hmem | hdone
          · cases hmem
          · exact hdone.1
        · rw [runLen_eq_zero hnp]
          omega
    · intro hnp
      rcases hD hnp with hmem | hdone
      · cases hmem
      · exact hdone.2
  | cons j js ih =>
    intro acc d bs hsub hsort hB hD hC
    have hmem : j ∈ purgedB2j b (getC b i) := hsub j (List.mem_cons_self j js)
    have hjlt : j < b.length := purged_lt hmem
    have hnpj : np b j := np_of_mem hmem
    have hnpi : np b i := np_diag_of_mem hi hmem
    have hk'j : chainVal old j ≤ runLen b j := chainVal_le_run holdR hnpj
    have hk'i : chainVal old j ≤ runLen b i :=
      chainVal_le_runI j hnpi (holdP hnpi)
    rw [innerLoop, if_neg (Nat.not_lt_zero j), if_neg (by omega : ¬ b.length ≤ j)]
    by_cases hup : bs < chainVal old j
    · -- an update: only the diagonal chain can exceed the running best
      have hji : j = i := by
        by_contra hne
        rcases Nat.lt_or_ge j i with hlt | hge
        · have := hB j hlt
          omega
        · have hgt : i < j := by omega
          rcases hD hnpi with hmem' | hdone
          · rcases List.mem_cons.mp hmem' with h' | h'
            · omega
            · have := (List.pairwise_cons.mp hsort).1 i h'
              omega
          · have := hdone.1
            omega
      subst hji
      have hdc : runLen b j ≤ chainVal old j := diag_le_chainVal hnpi holdD
      simp only [if_pos hup]
      apply ih
      · intro x hx
        exact hsub x (List.mem_cons_of_mem j hx)
      · exact (List.pairwise_cons.mp hsort).2
      · intro t ht
        have := hB t ht
        omega
      · intro hnp
        refine Or.inr ⟨by omega, ?_⟩
        rw [lookupD_cons_self]
        omega
      · intro x k hx
        rcases List.mem_cons.mp hx with h' | h'
        · have hx' : x = j := congrArg Prod.fst h'
          have hk' : k = chainVal old j := congrArg Prod.snd h'
          subst hx'
          subst hk'
          exact ⟨hk'j, hk'i⟩
        · exact hC x k h'
    · -- no update
      simp only [if_neg hup]
      apply ih
      · intro x hx
        exact hsub x (List.mem_cons_of_mem j hx)
      · exact (List.pairwise_cons.mp hsort).2
      · exact hB
      · intro hnp
        rcases hD hnp with hmem' | hdone
        · rcases List.mem_cons.mp hmem' with h' | h'
          · -- the diagonal itself is processed right now without an update
            subst h'
            have hdc : runLen b i ≤ chainVal old i := diag_le_chainVal hnpi holdD
            refine Or.inr ⟨by omega, ?_⟩
            rw [lookupD_cons_self]
            omega
          · exact Or.inl h'
        · refine Or.inr ⟨hdone.1, ?_⟩
          by_cases hji : j = i
          · subst hji
            rw [lookupD_cons_self]
            have hdc : runLen b j ≤ chainVal old j := diag_le_chainVal hnpi holdD
            omega
          · rw [lookupD_cons_ne _ _ _ _ hji]
            exact hdone.2
      · intro x k hx
        rcases List.mem_cons.mp hx with h' | h'
        · have hx' : x = j := congrArg Prod.fst h'
          have hk' : k = chainVal old j := congrArg Prod.snd h'
          subst hx'
          subst hk'
          exact ⟨hk'j, hk'i⟩
        · exact hC x k h'

/-- The DP loop on `(b, b)` over the full window keeps its best block on
the diagonal and ends with a size at least every live run of `b`. -/
theorem dpRefl (b : List Char) :
    ∀ (count i : Nat) (j2 : List (Nat × Nat)) (d bs : Nat),
      i + count = b.length →
      (∀ j k, (j, k) ∈ j2 → k ≤ runLen b j) →
      (np b i → ∀ j k, (j, k) ∈ j2 → k + 1 ≤ runLen b i) →
      (∀ t, i = t + 1 → np b t → runLen b t ≤ lookupD j2 t) →
      (∀ t, t < i → runLen b t ≤ bs) →
      ∃ d' s',
        dpLoop (purgedB2j b) 0 b.length b count i j2 d d bs = (d', d', s') ∧
        ∀ t, t < b.length → runLen b t ≤ s' := by
  intro count
  induction count with
  | zero =>
    intro i j2 d bs hn _ _ _ hB
    exact ⟨d, bs, rfl, fun t ht => hB t (by omega)⟩
  | succ c ih =>
    intro i j2 d bs hn holdR holdP holdD hB
    have hi : i < b.length := by omega
    obtain ⟨acc', d', s', hinner, hB', hD', hC'⟩ :=
      innerRefl hi j2 holdR holdP holdD (purgedB2j b (getC b i)) [] d bs
        (fun _ hx => hx) (purged_pairwise b (getC b i)) hB
        (fun hnp => Or.inl hnp) (fun _ _ hx => by cases hx)
    rw [dpLoop]
    simp only [hinner]
    apply ih (i + 1) acc' d' s' (by omega)
    · intro j k hx
      exact (hC' j k hx).1
    · intro hnp1 j k hx
      have h2 := (hC' j k hx).2
      have hr1 : runLen b (i + 1) = runLen b i + 1 := by
        rw [runLen, if_pos hnp1]
      omega
    · intro t ht hnpt
      have : t = i := by omega
      subst this
      exact hD' hnpt
    · intro t ht
      exact hB' t (by omega)

/-- The backward extension loop on `(b, b)` from a diagonal block drags it
back to the start of the window. -/
theorem ext1_diag (b : List Char) : ∀ d s, ext1 b b 0 0 d d s = (0, 0, s + d) := by
  intro d
  induction d with
  | zero => intro s; rfl
  | succ t ih =>
    intro s
    have hc : 0 < t + 1 ∧ 0 < t + 1 ∧ getC b t == getC b (t + 1 - 1) :=
      ⟨Nat.succ_pos t, Nat.succ_pos t, by simp⟩
    rw [ext1, if_pos hc, Nat.succ_sub_one, ih]
    have hadd : s + 1 + t = s + (t + 1) := by omega
    rw [hadd]

/-- The forward extension loop on `(b, b)` from the start of the window
reaches the end of the window. -/
theorem ext2F_diag (b : List Char) (n : Nat) :
    ∀ fuel s, s + fuel = n → ext2F b b n n 0 0 fuel s = n := by
  intro fuel
  induction fuel with
  | zero =>
    intro s h
    rw [ext2F]
    omega
  | succ t ih =>
    intro s h
    have hc : 0 + s < n ∧ 0 + s < n ∧ getC b (0 + s) == getC b (0 + s) :=
      ⟨by omega, by omega, by simp⟩
    rw [ext2F, if_pos hc]
    exact ih (s + 1) (by omega)

/-- On identical sequences `find_longest_match` over the full window
returns the whole string. -/
theorem flm_refl (b : List Char) :
    flm b b (purgedB2j b) 0 b.length 0 b.length = (0, 0, b.length) := by
  obtain ⟨d, s, hdp, hs⟩ := dpRefl b b.length 0 [] 0 0 (by omega)
    (fun _ _ hx => by cases hx) (fun _ j k hx => by cases hx)
    (fun t ht _ => by omega) (fun t ht => by omega)
  have hbv := @dpLoop_inv 0 b.length 0 b.length (purgedB2j b) b
    b.length 0 [] 0 0 0 (Nat.le_refl 0)
    (by omega) (by intro j k hx; cases hx) (by simp [BestInv])
  rw [hdp] at hbv
  simp only [BestInv] at hbv
  have hsn : s + d ≤ b.length := by
    rcases hbv with hz | hb <;> omega
  unfold flm
  simp only [Nat.sub_zero, hdp, ext1_diag]
  unfold ext2
  rw [ext2F_diag b b.length (b.length - (0 + (s + d))) (s + d) (by omega)]

/-- `ratio(b, b) = 1` for every string `b` (including long strings where
the autojunk purge hides popular characters). -/
theorem pyRatio_refl (b : List Char) : pyRatio b b = 1 := by
  unfold pyRatio
  by_cases h0 : b.length + b.length = 0
  · rw [if_pos h0]
  · rw [if_neg h0]
    have hn : 1 ≤ b.length := by omega
    have hmt : matchTotal b b (purgedB2j b) 0 b.length 0 b.length = b.length := by
      unfold matchTotal
      obtain ⟨f, hf⟩ : ∃ f, (b.length - 0) + (b.length - 0) = f + 1 :=
        ⟨b.length - 0 + (b.length - 0) - 1, by omega⟩
      rw [hf, matchTotalF]
      simp only [flm_refl]
      rw [if_neg (by omega : ¬ b.length = 0),
        if_neg (by omega : ¬ (0 < 0 ∧ 0 < 0)),
        if_neg (by omega : ¬ (0 + b.length < b.length ∧ 0 + b.length < b.length))]
      omega
    rw [hmt]
    have hne : ((b.length : ℚ)) ≠ 0 := Nat.cast_ne_zero.mpr (by omega)
    field_simp
    ring

/-- `_fuzzy_match(x, x) = 1` for every string `x`. -/
theorem fuzzyMatch_refl (x : List Char) : fuzzyMatch x x = 1 :=
  pyRatio_refl (lowerStr x)

end Difflib

/-! ## OCRCache (`engine/cache/ocr_cache.py`)

`_compute_hash` (an md5 of a 16x16 grayscale thumbnail) is deterministic
and content-based; images enter the model through their digest string, and
the cached OCR payload is an arbitrary type `δ`.  The `OrderedDict` is
modelled as a list of key-entry pairs whose head is the oldest
(least-recently-used) position. -/

structure OCRCacheEntry (δ : Type) where
  imageHash : String
  ocrData : δ
  allText : List String
  deriving DecidableEq

structure OCRCacheState (δ : Type) where
  maxSize : Nat
  cache : List (String × OCRCacheEntry δ)
  hits : Nat
  misses : Nat
  deriving DecidableEq

namespace OCRCacheState

/-- `OrderedDict.move_to_end(h)`: detach the entry keyed `h` and re-append
it at the most-recently-used end. -/
def moveToEnd {δ : Type} (l : List (String × OCRCacheEntry δ)) (h : String) :
    List (String × OCRCacheEntry δ) :=
  match l.find? (fun p => p.1 == h) with
  | some e => l.eraseP (fun p => p.1 == h) ++ [e]
  | none => l

/-- `OCRCache.get`: on a hit, bump the hit counter and move the entry to
the most-recently-used end; on a miss, bump the miss counter. -/
def get {δ : Type} (s : OCRCacheState δ) (h : String) :
    Option (OCRCacheEntry δ) × OCRCacheState δ :=
  match s.cache.find? (fun p => p.1 == h) with
  | some e => (some e.2, ⟨s.maxSize, moveToEnd s.cache h, s.hits + 1, s.misses⟩)
  | none => (none, ⟨s.maxSize, s.cache, s.hits, s.misses + 1⟩)

/-- `OCRCache.put`: first evict the oldest entry whenever the cache is at
capacity (`len(cache) >= max_size`, even if the digest being put is
already cached), then assign the entry.  Dict assignment updates an
existing key in place without changing its position and appends a new key
at the most-recently-used end. -/
def put {δ : Type} (s : OCRCacheState δ) (h : String) (ocrData : δ)
    (allText : List String) : String × OCRCacheState δ :=
  let c1 := if s.maxSize ≤ s.cache.length then s.cache.tail else s.cache
  let entry : OCRCacheEntry δ := ⟨h, ocrData, allText⟩
  let c2 :=
    if c1.any (fun p => p.1 == h) then
      c1.map (fun p => if p.1 == h then (h, entry) else p)
    else c1 ++ [(h, entry)]
  (h, ⟨s.maxSize, c2, s.hits, s.misses⟩)

end OCRCacheState

/-- Following the claim's words, for comparison with the code: an LRU
cache where every `get` and every `put` (also of an already-cached digest)
refreshes recency, and exceeding the capacity evicts the
least-recently-used entry. -/
def claimLRUPut {δ : Type} (s : OCRCacheState δ) (h : String) (ocrData : δ)
    (allText : List String) : OCRCacheState δ :=
  let entry : OCRCacheEntry δ := ⟨h, ocrData, allText⟩
  let c1 := (s.cache.eraseP (fun p => p.1 == h)) ++ [(h, entry)]
  let c2 := if s.maxSize < c1.length then c1.tail else c1
  ⟨s.maxSize, c2, s.hits, s.misses⟩

/-! ## Retry utility (`engine/utils/retry.py`)

`_make_wrapper` invokes the wrapped callable up to `max_attempts` times
(`for attempt in range(1, max_attempts + 1)`).  The callable is modelled
as a function from the attempt number (1-based) to an `Except` outcome;
the backoff sleeps only consume wall-clock time and do not affect the
returned value, so they are not modelled. -/

structure RetryConfig (ε : Type) where
  maxAttempts : Nat
  baseDelay : ℚ
  maxDelay : ℚ
  exponentialBase : ℚ
  retryOn : ε → Bool

inductive RetryOutcome (ε α : Type) where
  /-- The wrapped callable returned normally (value, attempt number). -/
  | ok : α → Nat → RetryOutcome ε α
  /-- `RetryExhaustedError(operation, attempts, last_error)`. -/
  | exhausted : Nat → Option ε → RetryOutcome ε α
  /-- An exception not matching `retry_on` propagates out of the wrapper. -/
  | raised : ε → RetryOutcome ε α
  deriving DecidableEq

/-- The retry loop with `remaining` iterations left and the current
1-based attempt number; falling out of the loop raises
`RetryExhaustedError` with `attempts = max_attempts` and the last caught
error. -/
def runRetryAux {ε α : Type} (cfg : RetryConfig ε) (f : Nat → Except ε α) :
    Nat → Nat → Option ε → RetryOutcome ε α
  | 0, _, last => .exhausted cfg.maxAttempts last
  | remaining + 1, attempt, last =>
    match f attempt with
    | .ok a => .ok a attempt
    | .error e =>
      if cfg.retryOn e then runRetryAux cfg f remaining (attempt + 1) (some e)
      else .raised e

/-- `_make_wrapper(func, config)` applied to a call: run the attempt loop
starting at attempt 1. -/
def runRetry {ε α : Type} (cfg : RetryConfig ε) (f : Nat → Except ε α) :
    RetryOutcome ε α :=
  runRetryAux cfg f cfg.maxAttempts 1 none

/-! ## Core result types (`engine/core/types.py`) -/

inductive LocatorMethod where
  | ocr
  | icon
  | hybrid
  deriving DecidableEq

/-- The `Enum.value` payload of each `LocatorMethod` member. -/
def LocatorMethod.value : LocatorMethod → String
  | .ocr => "ocr"
  | .icon => "icon"
  | .hybrid => "hybrid"

structure BoundingBox where
  x1 : Int
  y1 : Int
  x2 : Int
  y2 : Int
  deriving DecidableEq

/-- `BoundingBox.to_list`. -/
def BoundingBox.toList (bb : BoundingBox) : List Int := [bb.x1, bb.y1, bb.x2, bb.y2]

structure LocatorResult where
  found : Bool
  element : Option String
  bbox : Option BoundingBox
  confidence : ℚ
  method : Option LocatorMethod
  timeMs : ℚ
  suggestions : List String

/-- `LocatorResult.not_found(suggestions)`. -/
def LocatorResult.notFound (suggestions : List String) : LocatorResult :=
  ⟨false, none, none, 0, none, 0, suggestions⟩

/-- A fragment of the JSON-serializable structure built by `to_dict`. -/
inductive PyVal where
  | null
  | bool (b : Bool)
  | int (n : Int)
  | num (q : ℚ)
  | str (s : String)
  | list (l : List PyVal)

/-- `LocatorResult.to_dict`. -/
def LocatorResult.toDict (r : LocatorResult) : List (String × PyVal) :=
  [("found", .bool r.found),
   ("element", match r.element with | some s => .str s | none => .null),
   ("bbox", match r.bbox with
     | some b => .list (b.toList.map PyVal.int)
     | none => .null),
   ("confidence", .num r.confidence),
   ("method", match r.method with | some m => .str m.value | none => .null),
   ("time_ms", .num r.timeMs),
   ("suggestions", .list (r.suggestions.map PyVal.str))]

/-! ## Regions (`engine/core/regions.py`) -/

/-- Normalized region coordinates `(x1, y1, x2, y2)` in `[0, 1]`. -/
abbrev RegionCoords := ℚ × ℚ × ℚ × ℚ

/-- The default screen region table `REGIONS`. -/
def REGIONS : List (String × RegionCoords) :=
  [("menu_bar", (0, 0, 1, 0.04)),
   ("toolbar", (0, 0.04, 1, 0.12)),
   ("sidebar", (0, 0.04, 0.25, 0.95)),
   ("main", (0.25, 0.04, 1, 0.95)),
   ("bottom", (0, 0.90, 1, 1)),
   ("dock", (0, 0.95, 1, 1)),
   ("full", (0, 0, 1, 1)),
   ("center", (0.25, 0.25, 0.75, 0.75)),
   ("top_half", (0, 0, 1, 0.5)),
   ("bottom_half", (0, 0.5, 1, 1)),
   ("left_half", (0, 0, 0.5, 1)),
   ("right_half", (0.5, 0, 1, 1))]

/-- `RegionManager` state: the per-session custom regions and the
transient window-relative regions (`_window_regions`, populated by
`update_for_active_window`).  The screen size and target-app fields play
no role in the embedded operations. -/
structure RegionManager where
  customRegions : List (String × RegionCoords)
  windowRegions : List (String × RegionCoords)

/-- The coordinate lookup of `RegionManager.get`: custom regions take
precedence over window-relative regions over the default table; an
unknown name raises `InvalidRegionError`, modelled as `none`. -/
def RegionManager.getCoords (rm : RegionManager) (name : String) :
    Option RegionCoords :=
  match rm.customRegions.find? (fun p => p.1 == name) with
  | some p => some p.2
  | none =>
    match rm.windowRegions.find? (fun p => p.1 == name) with
    | some p => some p.2
    | none => (REGIONS.find? (fun p => p.1 == name)).map Prod.snd

/-- `RegionManager.list_regions`: the default table's keys plus the custom
region keys.  The window-relative keys (`_window_regions`) are NOT
included. -/
def RegionManager.listRegions (rm : RegionManager) : List String :=
  REGIONS.map Prod.fst ++ rm.customRegions.map Prod.fst

/-- The fallback-region choice of `HybridLocator.locate` (line 327):
`"window" if "window" in [r for r in self.regions.list_regions()] else
"full"`. -/
def fallbackRegion (rm : RegionManager) : String :=
  if "window" ∈ rm.listRegions then "window" else "full"

/-! ## Hybrid orchestrator (`engine/locators/hybrid_locator.py`) -/

/-- One entry of a text-locator `all_matches` list (the dicts built by
`OCRLocator.locate`). -/
structure OCRMatch where
  text : List Char
  bbox : BoundingBox
  confidence : Int
  matchScore : ℚ
  weightedScore : ℚ

/-- The disambiguation block of `HybridLocator.locate`, applied to a found
OCR result (the requested-region attempt and the window-fallback attempt
run the same block): with at least one match and a nonempty instruction,
`_pick_best_match` either rejects all matches (force not-found with a
context-mismatch suggestion) or promotes the picked match. -/
def applyPick (r : LocatorResult) (ms : List OCRMatch) (instruction : String)
    (pick : List OCRMatch → Option OCRMatch) : LocatorResult :=
  if 1 ≤ ms.length ∧ instruction ≠ "" then
    match pick ms with
    | none => ⟨false, r.element, r.bbox, r.confidence, r.method, r.timeMs,
        ["Found text but not in correct context"]⟩
    | some m => ⟨r.found, some (String.mk m.text), some m.bbox,
        (m.confidence : ℚ), r.method, r.timeMs, r.suggestions⟩
  else r

/-- The icon-fallback tail of `HybridLocator.locate`: try the icon locator
in the originally requested region; tag a found result as hybrid;
otherwise build the final not-found result with deduplicated accumulated
suggestions (Python's `list(set(...))` order is implementation-defined;
`List.dedup` is one such order and no claim depends on it).  The trace
records each sub-locator attempt as a (strategy, region) pair. -/
def iconStage (tryIcon : String → LocatorResult) (region : String)
    (allSuggestions : List String) (trace : List (String × String)) :
    LocatorResult × List (String × String) :=
  let r := tryIcon region
  if r.found then
    (⟨r.found, r.element, r.bbox, r.confidence, some .hybrid, 0, r.suggestions⟩,
      trace ++ [("icon", region)])
  else
    (⟨false, none, none, 0, some .hybrid, 0,
        (allSuggestions ++ r.suggestions).dedup⟩,
      trace ++ [("icon", region)])

/-- `HybridLocator.locate` with the sub-locators and the vision
disambiguation abstracted as oracles: `tryOcr r` is the `_try_ocr` result
in region `r` together with its `all_matches` (retries and exceptions are
already folded into it — `_try_ocr` converts any exception to a plain
not-found), `tryIcon` likewise for `_try_icon`, and `pick` is
`_pick_best_match`.  Wall-clock time stamps are set to 0.  Returns the
result and the attempt trace. -/
def hybridLocate (rm : RegionManager)
    (tryOcr : String → LocatorResult × List OCRMatch)
    (tryIcon : String → LocatorResult)
    (pick : List OCRMatch → Option OCRMatch)
    (region : String) (isIcon : Bool) (instruction : String) :
    LocatorResult × List (String × String) :=
  if isIcon then iconStage tryIcon region [] []
  else
    let s1 := tryOcr region
    let r1 := if s1.1.found then applyPick s1.1 s1.2 instruction pick else s1.1
    if r1.found then
      (⟨r1.found, r1.element, r1.bbox, r1.confidence, some .hybrid, 0,
          r1.suggestions⟩,
        [("ocr", region)])
    else if region ≠ "full" ∧ region ≠ "window" then
      let fb := fallbackRegion rm
      let s2 := tryOcr fb
      let r2 := if s2.1.found then applyPick s2.1 s2.2 instruction pick else s2.1
      if r2.found then
        (⟨r2.found, r2.element, r2.bbox, r2.confidence, some .hybrid, 0,
            r2.suggestions⟩,
          [("ocr", region), ("ocr", fb)])
      else
        iconStage tryIcon region (r1.suggestions ++ r2.suggestions)
          [("ocr", region), ("ocr", fb)]
    else
      iconStage tryIcon region r1.suggestions [("ocr", region)]

/-! ## Icon locator (`engine/locators/icon_locator.py`)

The image operations (region crop, quadrant crop, `resize_for_api`, grid
overlay) and the vision call are external; the embedding starts from the
parsed vision reply and the geometry parameters they produce: the
downscaled image size `(apiW, apiH)`, the scale factors back to the
cropped image (`scale_x = img.width / img_for_api.width ≥ 0`, likewise
`scale_y`), the accumulated crop offsets, and the original image size
`(W, H)`.  Python floats are modelled as exact rationals. -/

def GRID_COLS : Nat := 24

def GRID_ROWS : Nat := 16

/-- Python `int(...)` applied to a (modelled) float: truncation toward
zero. -/
def truncQ (q : ℚ) : Int := if 0 ≤ q then ⌊q⌋ else ⌈q⌉

/-- Value of a nonempty all-digit string. -/
def digitsVal (s : List Char) : Option Nat :=
  if s ≠ [] ∧ s.all Char.isDigit then
    some (s.foldl (fun acc c => acc * 10 + (c.toNat - 48)) 0)
  else none

/-- ASCII whitespace (the characters `str.strip()` removes; exotic
Unicode whitespace is not modelled). -/
def isPySpace (c : Char) : Bool :=
  c == ' ' || c == '\t' || c == '\n' || c == '\r' || c == '\x0b' || c == '\x0c'

/-- Python `str.strip()`. -/
def pyStrip (s : List Char) : List Char :=
  ((s.dropWhile isPySpace).reverse.dropWhile isPySpace).reverse

/-- Python `int(str)`: optional surrounding whitespace, an optional sign,
then decimal digits; anything else raises `ValueError` (digit-grouping
underscores are not modelled).  `.error` stands for the raised
`ValueError`. -/
def intParse (s : List Char) : Except Unit Int :=
  match pyStrip s with
  | '+' :: rest =>
    match digitsVal rest with
    | some n => .ok (n : Int)
    | none => .error ()
  | '-' :: rest =>
    match digitsVal rest with
    | some n => .ok (-(n : Int))
    | none => .error ()
  | rest =>
    match digitsVal rest with
    | some n => .ok (n : Int)
    | none => .error ()

/-- `IconLocator._cell_to_bbox`: parse the cell label (`cell[0]` raises
`IndexError` on an empty string, `int(cell[1:])` raises `ValueError` on
non-numeric row digits — both modelled as `.error`), then take the inner
70% of the cell (15% inward padding) on the downscaled image.  No range
check is performed on the parsed column or row. -/
def cellToBbox (cell : List Char) (imgWidth imgHeight : Nat) :
    Except Unit BoundingBox :=
  match cell with
  | [] => .error ()
  | c0 :: rest =>
    match intParse rest with
    | .error _ => .error ()
    | .ok rowNum =>
      let col : Int := (c0.toUpper.toNat : Int) - 65
      let row : Int := rowNum - 1
      let cellW : ℚ := (imgWidth : ℚ) / (GRID_COLS : ℚ)
      let cellH : ℚ := (imgHeight : ℚ) / (GRID_ROWS : ℚ)
      .ok ⟨truncQ (((col : ℚ) + 0.15) * cellW),
           truncQ (((row : ℚ) + 0.15) * cellH),
           truncQ (((col : ℚ) + 1 - 0.15) * cellW),
           truncQ (((row : ℚ) + 1 - 0.15) * cellH)⟩

/-- The scale-back, offset and clamp steps of `IconLocator.locate`'s
found path (lines 387-403). -/
def iconScaleClamp (bb : BoundingBox) (scaleX scaleY : ℚ) (offX offY : Int)
    (W H : Nat) : BoundingBox :=
  let x1 := truncQ ((bb.x1 : ℚ) * scaleX) + offX
  let y1 := truncQ ((bb.y1 : ℚ) * scaleY) + offY
  let x2 := truncQ ((bb.x2 : ℚ) * scaleX) + offX
  let y2 := truncQ ((bb.y2 : ℚ) * scaleY) + offY
  ⟨max 0 (min x1 ((W : Int) - 1)), max 0 (min y1 ((H : Int) - 1)),
   max 0 (min x2 (W : Int)), max 0 (min y2 (H : Int))⟩

/-- The dict produced by `IconLocator._parse_response`: the truthiness of
`result.get("found")`, the cell when it is a JSON string (a reply whose
`cell` is a number or list would raise `TypeError` in `_cell_to_bbox`
outside the `except (ValueError, IndexError)` net and is not modelled),
and the optional description. -/
structure ParsedResp where
  found : Bool
  cell : Option (List Char)
  description : Option String

/-- Outcome of the `generate_content` call plus `_parse_response`. -/
inductive VisionReply where
  | apiError (msg : String)
  | parsed (p : ParsedResp)

/-- The fallback dict `_parse_response` returns on unparseable JSON. -/
def parseFailure : ParsedResp := ⟨false, none, some "Failed to parse response"⟩

/-- An ASCII apostrophe (used in the diagnostic message format). -/
def sq : String := String.singleton (Char.ofNat 39)

/-- `IconLocator.locate` from the vision call onwards: API failure and
not-found replies yield not-found results with a diagnostic suggestion; a
found reply with a truthy cell goes through `_cell_to_bbox`, scaling,
offsets and clamping; `ValueError`/`IndexError` from the cell parse is
caught and converted to a not-found result.  Elapsed wall-clock times are
set to 0. -/
def iconLocate (reply : VisionReply) (apiW apiH : Nat) (scaleX scaleY : ℚ)
    (offX offY : Int) (W H : Nat) (target : String) (detectedRegion : String) :
    LocatorResult :=
  match reply with
  | .apiError msg =>
    ⟨false, none, none, 0, some .icon, 0, ["Gemini API error: " ++ msg]⟩
  | .parsed p =>
    match p.cell with
    | some c =>
      if p.found ∧ c ≠ [] then
        match cellToBbox c apiW apiH with
        | .ok bboxApi =>
          let bb := iconScaleClamp bboxApi scaleX scaleY offX offY W H
          let description := p.description.getD ("Found in cell " ++ String.mk c)
          let regionInfo :=
            if detectedRegion ≠ "full" then " in " ++ detectedRegion else ""
          ⟨true, some (target ++ " (" ++ description ++ regionInfo ++ ")"),
            some bb, 90, some .icon, 0, []⟩
        | .error _ =>
          ⟨false, none, none, 0, some .icon, 0,
            ["Invalid cell " ++ sq ++ String.mk c ++ sq ++ " returned by Gemini"]⟩
      else
        ⟨false, none, none, 0, some .icon, 0, [p.description.getD "Icon not found"]⟩
    | none =>
      ⟨false, none, none, 0, some .icon, 0, [p.description.getD "Icon not found"]⟩

/-! ## Disambiguation (`HybridLocator._pick_best_match`) -/

/-- Python substring test `a in b`. -/
def inStr (a b : List Char) : Bool :=
  (List.range (b.length + 1)).any (fun i => ((b.drop i).take a.length) == a)

/-- `sorted(matches, key=lambda m: m["bbox"].y1)`: Timsort is stable, and
all stable sorts by the same key produce the same list, so insertion sort
with the non-strict key order models it exactly. -/
def sortByY (ms : List OCRMatch) : List OCRMatch :=
  List.insertionSort (fun m1 m2 => m1.bbox.y1 ≤ m2.bbox.y1) ms

inductive MultiPick where
  | noneCorrect
  | picked (i : Nat)
  deriving DecidableEq

/-- The digit scan of `_pick_best_match` over the reply text: for each
character, if it is a digit, `0` means none are correct, a value in
`1..n` picks that (1-based) sorted match, and any other digit lets the
scan continue; with no deciding digit the scan falls through to the
topmost match (index 0).  (`str.isdigit` also accepts Unicode digits on
which `int(char)` would raise; only ASCII digits are modelled.) -/
def scanAnswer (n : Nat) : List Char → MultiPick
  | [] => .picked 0
  | c :: cs =>
    if c.isDigit then
      let num := c.toNat - 48
      if num = 0 then .noneCorrect
      else if 1 ≤ num ∧ num ≤ n then .picked (num - 1)
      else scanAnswer n cs
    else scanAnswer n cs

/-- `_verify_single_match`: the YES/NO verification of a single match
tests `"YES" in response.text.strip().upper()`; any exception is
fail-open `True`. -/
def verifySingleMatch (answer : Except Unit (List Char)) : Bool :=
  match answer with
  | .error _ => true
  | .ok s => inStr "YES".data ((pyStrip s).map Char.toUpper)

/-- `_pick_best_match`: one match → YES/NO verification; several matches →
sort top-to-bottom by `bbox.y1`, scan the reply digits; an exception in
the multi branch falls back to `matches[0]` in the original order.
`singleAnswer`/`multiAnswer` are the vision replies (`.error` = raised
exception). -/
def pickBestMatch (ms : List OCRMatch)
    (singleAnswer multiAnswer : Except Unit (List Char)) : Option OCRMatch :=
  if ms.length = 1 then
    if verifySingleMatch singleAnswer then ms.head? else none
  else
    match multiAnswer with
    | .error _ => ms.head?
    | .ok ans =>
      let sorted := sortByY ms
      match scanAnswer sorted.length (pyStrip ans) with
      | .noneCorrect => none
      | .picked i => sorted.get? i

/-! ## Text locator (`engine/locators/ocr_locator.py`)

`locate` crops to the region (offset `(offX, offY)`) and runs OCR through
the cache; the OCR output for the crop is the external input `data`,
modelled as one record per entry of the pytesseract parallel arrays. -/

structure OCRWord where
  text : List Char
  left : Int
  top : Int
  width : Int
  height : Int
  conf : Int
  blockNum : Nat
  lineNum : Nat

/-- A default word for (unreachable) out-of-range index accesses. -/
def getW (data : List OCRWord) (i : Nat) : OCRWord :=
  data.getD i ⟨[], 0, 0, 0, 0, 0, 0, 0⟩

/-- Python falsiness of `text.strip()`. -/
def isBlank (s : List Char) : Bool := (pyStrip s).isEmpty

/-- One candidate dict of `OCRLocator.locate` (a raw word or a built
phrase). -/
structure OCRCand where
  text : List Char
  bbox : BoundingBox
  confidence : Int
  wordCount : Nat

/-- Python `str.split()` (split on whitespace runs, no empty parts). -/
def pySplitAux : List Char → List Char → List (List Char)
  | [], cur => if cur.isEmpty then [] else [cur.reverse]
  | c :: cs, cur =>
    if isPySpace c then
      if cur.isEmpty then pySplitAux cs [] else cur.reverse :: pySplitAux cs []
    else pySplitAux cs (c :: cur)

def pySplit (s : List Char) : List (List Char) := pySplitAux s []

/-- Group the indices of non-blank words by `(block_num, line_num)` in
first-occurrence order (Python dict insertion order), appending each index
to its line (`_build_phrases`, first loop). -/
def addToGroup (acc : List ((Nat × Nat) × List Nat)) (key : Nat × Nat)
    (i : Nat) : List ((Nat × Nat) × List Nat) :=
  if acc.any (fun p => p.1 == key) then
    acc.map (fun p => if p.1 == key then (p.1, p.2 ++ [i]) else p)
  else acc ++ [(key, [i])]

def groupLines (data : List OCRWord) : List ((Nat × Nat) × List Nat) :=
  data.enum.foldl
    (fun acc p =>
      if isBlank p.2.text then acc
      else addToGroup acc (p.2.blockNum, p.2.lineNum) p.1)
    []

/-- `line_indices.sort(key=lambda i: data["left"][i])` (stable). -/
def sortByLeft (data : List OCRWord) (idxs : List Nat) : List Nat :=
  List.insertionSort (fun i j => (getW data i).left ≤ (getW data j).left) idxs

def intMin : List Int → Int
  | [] => 0
  | x :: xs => xs.foldl min x

def intMax : List Int → Int
  | [] => 0
  | x :: xs => xs.foldl max x

/-- One phrase candidate built from the (sorted) indices of a slice:
joined text, the min/max combined bounding box shifted by the region
offset, and the floor-divided average confidence (`_build_phrases`, inner
loop body). -/
def phraseOf (data : List OCRWord) (offset : Int × Int) (idxs : List Nat) :
    OCRCand :=
  ⟨List.intercalate " ".data (idxs.map (fun i => (getW data i).text)),
   ⟨intMin (idxs.map (fun i => (getW data i).left)) + offset.1,
    intMin (idxs.map (fun i => (getW data i).top)) + offset.2,
    intMax (idxs.map (fun i => (getW data i).left + (getW data i).width)) + offset.1,
    intMax (idxs.map (fun i => (getW data i).top + (getW data i).height)) + offset.2⟩,
   Int.fdiv ((idxs.map (fun i => (getW data i).conf)).foldl (· + ·) 0)
     (idxs.length : Int),
   idxs.length⟩

/-- All contiguous slices `line[start : start + length]` with
`start ∈ range(len(line))` and `length ∈ range(1, min(max_words + 1,
len(line) - start + 1))`. -/
def subslices (line : List Nat) (maxWords : Nat) : List (List Nat) :=
  (List.range line.length).flatMap (fun start =>
    (List.range (min (maxWords + 1) (line.length - start + 1) - 1)).map
      (fun l0 => (line.drop start).take (l0 + 1)))

/-- `OCRLocator._build_phrases`. -/
def buildPhrases (data : List OCRWord) (offset : Int × Int) (maxWords : Nat) :
    List OCRCand :=
  (groupLines data).flatMap (fun kv =>
    (subslices (sortByLeft data kv.2) maxWords).map (phraseOf data offset))

/-- The single-word candidate list of `OCRLocator.locate` (raw non-blank
words with offset-shifted boxes). -/
def singleCands (data : List OCRWord) (offset : Int × Int) : List OCRCand :=
  (data.filter (fun w => !(isBlank w.text))).map (fun w =>
    ⟨w.text,
     ⟨w.left + offset.1, w.top + offset.2,
      w.left + offset.1 + w.width, w.top + offset.2 + w.height⟩,
     w.conf, 1⟩)

/-- The candidate score of `OCRLocator.locate` (lines 226-240): exact
case-insensitive equality → 1.0; target a substring of the candidate →
0.95; candidate a substring of the target and at least 4 characters →
0.85 x (len(candidate)/len(target)); otherwise the fuzzy ratio when fuzzy
matching is enabled, else 0. -/
def scoreCand (fuzzy : Bool) (target text : List Char) : ℚ :=
  let tl := Difflib.lowerStr target
  let xl := Difflib.lowerStr text
  if tl = xl then 1
  else if inStr tl xl then 0.95
  else if inStr xl tl ∧ 4 ≤ xl.length then
    0.85 * ((xl.length : ℚ) / (tl.length : ℚ))
  else if fuzzy then Difflib.fuzzyMatch target text
  else 0

/-- The `all_matches` accumulation: candidates whose score clears the
fuzzy threshold, with `weighted_score = score * confidence / 100`. -/
def matchesOf (fuzzy : Bool) (threshold : ℚ) (target : List Char)
    (cands : List OCRCand) : List OCRMatch :=
  cands.flatMap (fun c =>
    let s := scoreCand fuzzy target c.text
    if threshold ≤ s then
      [⟨c.text, c.bbox, c.confidence, s, s * ((c.confidence : ℚ) / 100)⟩]
    else [])

/-- `all_matches.sort(key=lambda x: x["weighted_score"], reverse=True)`:
a stable descending sort. -/
def sortByWeighted (ms : List OCRMatch) : List OCRMatch :=
  List.insertionSort (fun a b => b.weightedScore ≤ a.weightedScore) ms

def STOP_WORDS : List (List Char) :=
  ["the", "a", "an", "to", "in", "on", "at", "for", "of", "and", "or",
   "click", "tap", "button", "icon"].map String.data

/-- The second-pass key-word matches for multi-word targets (lines
272-285): content words of the lowered target (not a stop word, length at
least 3) matched exactly or at fuzzy ratio at least 0.85 against each
candidate, scored at the fixed 0.75. -/
def fallbackMatches (fuzzy : Bool) (target : List Char)
    (cands : List OCRCand) : List OCRMatch :=
  let targetWords := (pySplit (Difflib.lowerStr target)).filter
    (fun w => !(STOP_WORDS.contains w) && 3 ≤ w.length)
  targetWords.flatMap (fun word =>
    cands.flatMap (fun c =>
      let xl := Difflib.lowerStr c.text
      if word = xl ∨ 0.85 ≤ Difflib.fuzzyMatch word xl then
        [⟨c.text, c.bbox, c.confidence, 0.75, 0.75 * ((c.confidence : ℚ) / 100)⟩]
      else []))

/-- `OCRLocator._find_suggestions`: fuzzy-score every recognized string
against the target, keep those above 0.3, sort descending (stable) and
take the first 5. -/
def findSuggestions (target : List Char) (allText : List (List Char)) :
    List (List Char) :=
  let scored := allText.flatMap (fun t =>
    if isBlank t then []
    else
      let s := Difflib.fuzzyMatch target t
      if 0.3 < s then [(t, s)] else [])
  ((List.insertionSort (fun a b => b.2 ≤ a.2) scored).take 5).map Prod.fst

/-- A default match for (unreachable) empty-list head accesses. -/
def headM (l : List OCRMatch) : OCRMatch :=
  l.headD ⟨[], ⟨0, 0, 0, 0⟩, 0, 0, 0⟩

/-- `OCRLocator.locate` given the OCR `data` of the region crop and the
crop offset: build candidates (raw words for single-word targets, phrases
otherwise), score and rank them, fall back to content-word matches for
multi-word targets, otherwise return not-found with suggestions.  Returns
the result together with its `all_matches` attribute (empty when the
attribute is not set).  Elapsed wall-clock times are set to 0. -/
def ocrLocate (data : List OCRWord) (target : List Char) (offset : Int × Int)
    (fuzzy : Bool) (threshold : ℚ) : LocatorResult × List OCRMatch :=
  let targetWordCount := (pySplit target).length
  let candidates :=
    if 1 < targetWordCount then buildPhrases data offset (targetWordCount + 1)
    else singleCands data offset
  let allMatches := matchesOf fuzzy threshold target candidates
  if allMatches.isEmpty then
    let fb :=
      if 1 < targetWordCount then fallbackMatches fuzzy target candidates
      else []
    if fb.isEmpty then
      let allText := (data.filter (fun w => !(isBlank w.text))).map (·.text)
      (⟨false, none, none, 0, some .ocr, 0,
          (findSuggestions target allText).map String.mk⟩, [])
    else
      let sorted := sortByWeighted fb
      let best := headM sorted
      (⟨true, some (String.mk best.text), some best.bbox, (best.confidence : ℚ),
          some .ocr, 0, []⟩, sorted)
  else
    let sorted := sortByWeighted allMatches
    let best := headM sorted
    (⟨true, some (String.mk best.text), some best.bbox, (best.confidence : ℚ),
        some .ocr, 0, []⟩, sorted)

/-! ## Support lemmas for the icon geometry -/

/-- Truncation toward zero is monotone. -/
theorem truncQ_mono {q1 q2 : ℚ} (h : q1 ≤ q2) : truncQ q1 ≤ truncQ q2 := by
  unfold truncQ
  by_cases h1 : 0 ≤ q1
  · rw [if_pos h1, if_pos (le_trans h1 h)]
    exact Int.floor_le_floor h
  · rw [if_neg h1]
    by_cases h2 : 0 ≤ q2
    · rw [if_pos h2]
      have hc : ⌈q1⌉ ≤ (0 : ℤ) :=
        Int.ceil_le.mpr (by exact_mod_cast le_of_lt (lt_of_not_ge h1))
      have hf : (0 : ℤ) ≤ ⌊q2⌋ := Int.le_floor.mpr (by exact_mod_cast h2)
      omega
    · rw [if_neg h2]
      exact Int.ceil_le_ceil h

/-- The cell box computed by `_cell_to_bbox` is always well-ordered. -/
theorem cellToBbox_ordered {c : List Char} {w h : Nat} {bb : BoundingBox}
    (hcb : cellToBbox c w h = .ok bb) : bb.x1 ≤ bb.x2 ∧ bb.y1 ≤ bb.y2 := by
  unfold cellToBbox at hcb
  cases c with
  | nil => cases hcb
  | cons c0 rest =>
    cases hip : intParse rest with
    | error e => simp only [hip] at hcb; exact (Except.noConfusion hcb)
    | ok rowNum =>
      simp only [hip, Except.ok.injEq] at hcb
      subst hcb
      have hw : (0 : ℚ) ≤ (w : ℚ) / (GRID_COLS : ℚ) := by positivity
      have hh : (0 : ℚ) ≤ (h : ℚ) / (GRID_ROWS : ℚ) := by positivity
      constructor
      · apply truncQ_mono
        apply mul_le_mul_of_nonneg_right _ hw
        norm_num
        linarith
      · apply truncQ_mono
        apply mul_le_mul_of_nonneg_right _ hh
        norm_num
        linarith

/-- The scale-offset-clamp pipeline keeps boxes ordered and inside the
original image. -/
theorem iconScaleClamp_bounds (bb : BoundingBox) {sx sy : ℚ}
    (hsx : 0 ≤ sx) (hsy : 0 ≤ sy) (ox oy : Int) (W H : Nat)
    (hx : bb.x1 ≤ bb.x2) (hy : bb.y1 ≤ bb.y2) :
    0 ≤ (iconScaleClamp bb sx sy ox oy W H).x1 ∧
    (iconScaleClamp bb sx sy ox oy W H).x1 ≤ (iconScaleClamp bb sx sy ox oy W H).x2 ∧
    (iconScaleClamp bb sx sy ox oy W H).x2 ≤ (W : Int) ∧
    0 ≤ (iconScaleClamp bb sx sy ox oy W H).y1 ∧
    (iconScaleClamp bb sx sy ox oy W H).y1 ≤ (iconScaleClamp bb sx sy ox oy W H).y2 ∧
    (iconScaleClamp bb sx sy ox oy W H).y2 ≤ (H : Int) := by
  have hx' : truncQ ((bb.x1 : ℚ) * sx) + ox ≤ truncQ ((bb.x2 : ℚ) * sx) + ox := by
    have : truncQ ((bb.x1 : ℚ) * sx) ≤ truncQ ((bb.x2 : ℚ) * sx) :=
      truncQ_mono (mul_le_mul_of_nonneg_right (by exact_mod_cast hx) hsx)
    omega
  have hy' : truncQ ((bb.y1 : ℚ) * sy) + oy ≤ truncQ ((bb.y2 : ℚ) * sy) + oy := by
    have : truncQ ((bb.y1 : ℚ) * sy) ≤ truncQ ((bb.y2 : ℚ) * sy) :=
      truncQ_mono (mul_le_mul_of_nonneg_right (by exact_mod_cast hy) hsy)
    omega
  unfold iconScaleClamp
  simp only
  refine ⟨?_, ?_, ?_, ?_, ?_, ?_⟩ <;> omega

/-! ## Unfolding equations for the match pipeline -/

theorem matchesOf_nil (fuzzy : Bool) (threshold : ℚ) (target : List Char) :
    matchesOf fuzzy threshold target [] = [] := rfl

theorem matchesOf_cons (fuzzy : Bool) (threshold : ℚ) (target : List Char)
    (c : OCRCand) (cs : List OCRCand) :
    matchesOf fuzzy threshold target (c :: cs) =
      (if threshold ≤ scoreCand fuzzy target c.text then
        [⟨c.text, c.bbox, c.confidence, scoreCand fuzzy target c.text,
          scoreCand fuzzy target c.text * ((c.confidence : ℚ) / 100)⟩]
      else []) ++ matchesOf fuzzy threshold target cs := rfl

theorem sortByWeighted_pair (m1 m2 : OCRMatch) :
    sortByWeighted [m1, m2] =
      if m2.weightedScore ≤ m1.weightedScore then [m1, m2] else [m2, m1] := rfl

/-! ## Claim C1: the window fallback region -/

/-- A `RegionManager` in its default configuration (no custom regions)
right after `update_for_active_window` has populated the window-relative
regions: `get("window")` resolves, yet `list_regions()` does not contain
`"window"`. -/
def windowedManager : RegionManager :=
  ⟨[], [("window", (1/10, 1/10, 9/10, 9/10)),
        ("window_top", (1/10, 1/10, 9/10, 1/2)),
        ("window_bottom", (1/10, 1/2, 9/10, 9/10))]⟩

/-- An OCR oracle that never finds anything (both attempts fail). -/
def c1NoOcr : String → LocatorResult × List OCRMatch :=
  fun _ => (LocatorResult.notFound [], [])

/-- An icon oracle that never finds anything. -/
def c1NoIcon : String → LocatorResult :=
  fun _ => LocatorResult.notFound []

/-- C1: the claim (and the spec) say the second text-locator attempt is
scoped to the `"window"` region.  In the code, `list_regions()` returns
only the default table and the custom regions — never the
window-relative names — so the membership test on line 327 of
`hybrid_locator.py` is false even when `"window"` is resolvable, and the
retry is scoped to `"full"`: with the window regions populated,
`get("window")` succeeds, yet the fallback region is `"full"` and the
attempt trace of a failing locate in `"sidebar"` is
ocr@sidebar, ocr@full, icon@sidebar. -/
theorem C1_window_fallback_is_full :
    (windowedManager.getCoords "window").isSome = true ∧
    fallbackRegion windowedManager = "full" ∧
    (hybridLocate windowedManager c1NoOcr c1NoIcon (fun _ => none)
        "sidebar" false "").2 =
      [("ocr", "sidebar"), ("ocr", "full"), ("icon", "sidebar")] := by
  refine ⟨rfl, rfl, rfl⟩

/-! ## Claim C2: icon locator error handling -/

/-- C2 counterexample: the cell label `"Y20"` is outside the 24x16 grid
on both axes (columns run A..X, rows 1..16), yet `IconLocator.locate`
does not return not-found on it: `_cell_to_bbox` performs no range check,
the parse succeeds, and the result is found=true. -/
theorem C2_counterexample :
    (iconLocate (.parsed ⟨true, some "Y20".data, some "d"⟩)
      800 600 1 1 0 0 800 600 "target" "full").found = true := rfl

/-- C2 (amended): `IconLocator.locate` raises no uncaught exception on
any modelled reply (JSON-string cells; a non-string `cell` value would
raise `TypeError` outside the `except (ValueError, IndexError)` net and
is outside the claim): an API failure yields not-found with the
diagnostic `"Gemini API error: ..."`; an unparseable JSON reply yields
not-found with `"Failed to parse response"`; a found reply whose cell
fails to parse (`ValueError`/`IndexError`) yields not-found with the
`"Invalid cell ..."` diagnostic; a not-found reply yields not-found with
the description or `"Icon not found"`.  However an out-of-range cell
that parses (e.g. `"Y20"`) is NOT detected: it produces found=true. -/
theorem C2_amended (apiW apiH : Nat) (sx sy : ℚ) (ox oy : Int) (W H : Nat)
    (t dr : String) :
    (∀ msg,
      (iconLocate (.apiError msg) apiW apiH sx sy ox oy W H t dr).found = false ∧
      (iconLocate (.apiError msg) apiW apiH sx sy ox oy W H t dr).suggestions =
        ["Gemini API error: " ++ msg]) ∧
    ((iconLocate (.parsed parseFailure) apiW apiH sx sy ox oy W H t dr).found
        = false ∧
      (iconLocate (.parsed parseFailure) apiW apiH sx sy ox oy W H t
        dr).suggestions = ["Failed to parse response"]) ∧
    (∀ p c, p.cell = some c → p.found = true → c ≠ [] →
      cellToBbox c apiW apiH = .error () →
      (iconLocate (.parsed p) apiW apiH sx sy ox oy W H t dr).found = false ∧
      (iconLocate (.parsed p) apiW apiH sx sy ox oy W H t dr).suggestions =
        ["Invalid cell " ++ sq ++ String.mk c ++ sq ++ " returned by Gemini"]) ∧
    (∀ p, p.found = false →
      (iconLocate (.parsed p) apiW apiH sx sy ox oy W H t dr).found = false ∧
      (iconLocate (.parsed p) apiW apiH sx sy ox oy W H t dr).suggestions =
        [p.description.getD "Icon not found"]) ∧
    (∀ p c bb, p.cell = some c → p.found = true → c ≠ [] →
      cellToBbox c apiW apiH = .ok bb →
      (iconLocate (.parsed p) apiW apiH sx sy ox oy W H t dr).found = true) := by
  refine ⟨fun msg => ⟨rfl, rfl⟩, ⟨rfl, rfl⟩, ?_, ?_, ?_⟩
  · intro p c hc hfound hne hcb
    simp [iconLocate, hc, hfound, hne, hcb]
  · intro p hfound
    cases hc : p.cell with
    | none => simp [iconLocate, hc]
    | some c => simp [iconLocate, hc, hfound]
  · intro p c bb hc hfound hne hcb
    simp [iconLocate, hc, hfound, hne, hcb]

/-- Witness for the amended C2 at a concrete invalid-cell reply: the
label `"AB"` has a non-numeric row part, so `int("B")` raises and the
result is a not-found with the invalid-cell diagnostic. -/
theorem C2_amended_witness :
    (iconLocate (.parsed ⟨true, some "AB".data, none⟩)
      800 600 1 1 0 0 800 600 "t" "full").found = false ∧
    (iconLocate (.parsed ⟨true, some "AB".data, none⟩)
      800 600 1 1 0 0 800 600 "t" "full").suggestions =
      ["Invalid cell " ++ sq ++ "AB" ++ sq ++ " returned by Gemini"] := by
  exact (C2_amended 800 600 1 1 0 0 800 600 "t" "full").2.2.1
    ⟨true, some "AB".data, none⟩ "AB".data rfl rfl (by decide) rfl

/-! ## Claim C9: the serialized result structure -/

/-- C9 counterexample: the dict built by `LocatorResult.to_dict` has
exactly the keys found, element, bbox, confidence, method, time_ms,
suggestions — there is no `center` field. -/
theorem C9_counterexample :
    ((LocatorResult.notFound []).toDict.map Prod.fst) =
      ["found", "element", "bbox", "confidence", "method", "time_ms",
        "suggestions"] ∧
    ¬ "center" ∈ ((LocatorResult.notFound []).toDict.map Prod.fst) :=
  ⟨rfl, by decide⟩

/-- C9 (amended): every `LocatorResult` serializes to a flat structure
with exactly the keys found, element, bbox, confidence, method, time_ms
and suggestions (no `center` key); the bbox value is the 4-element list
`[x1, y1, x2, y2]` when a box is present and null otherwise. -/
theorem C9_amended (r : LocatorResult) :
    (r.toDict.map Prod.fst =
      ["found", "element", "bbox", "confidence", "method", "time_ms",
        "suggestions"]) ∧
    (¬ "center" ∈ r.toDict.map Prod.fst) ∧
    (∀ b, r.bbox = some b →
      (r.toDict.find? (fun p => p.1 == "bbox")).map Prod.snd =
        some (.list [.int b.x1, .int b.y1, .int b.x2, .int b.y2])) ∧
    (r.bbox = none →
      (r.toDict.find? (fun p => p.1 == "bbox")).map Prod.snd = some .null) := by
  refine ⟨rfl, ?_, ?_, ?_⟩
  · intro h
    rw [show r.toDict.map Prod.fst =
      ["found", "element", "bbox", "confidence", "method", "time_ms",
        "suggestions"] from rfl] at h
    exact absurd h (by decide)
  · intro b hb
    simp only [LocatorResult.toDict, BoundingBox.toList, hb]
    rfl
  · intro hb
    simp only [LocatorResult.toDict, hb]
    rfl

/-- Witness for the amended C9 at a concrete not-found result (bbox is
null). -/
theorem C9_amended_witness :
    ((LocatorResult.notFound ["x"]).toDict.map Prod.fst =
      ["found", "element", "bbox", "confidence", "method", "time_ms",
        "suggestions"]) ∧
    (((LocatorResult.notFound ["x"]).toDict.find?
        (fun p => p.1 == "bbox")).map Prod.snd = some .null) :=
  ⟨(C9_amended (LocatorResult.notFound ["x"])).1,
   (C9_amended (LocatorResult.notFound ["x"])).2.2.2 rfl⟩

/-! ## Claim C5: cache recency semantics -/

/-- The cache contents after `put A; put B; put B` on an empty
capacity-2 cache, as the code computes them: the second `put B` first
evicts the oldest entry (A) because `len >= max_size`, and only then
updates B in place. -/
def c5CexCode : OCRCacheState Nat :=
  (OCRCacheState.put
    ((OCRCacheState.put
      ((OCRCacheState.put (⟨2, [], 0, 0⟩ : OCRCacheState Nat) "A" 1 []).2)
      "B" 2 []).2)
    "B" 3 []).2

/-- The same operation sequence under the claim's reading (every put,
also of an already-cached digest, refreshes recency and only an
over-capacity cache evicts): A stays cached. -/
def c5CexClaim : OCRCacheState Nat :=
  claimLRUPut (claimLRUPut (claimLRUPut (⟨2, [], 0, 0⟩ : OCRCacheState Nat)
    "A" 1 []) "B" 2 []) "B" 3 []

/-- C5 counterexample: after `put A; put B; put B` on an empty
capacity-2 cache the code has evicted A (`put` evicts whenever
`len(cache) >= max_size`, even when the digest being put is already
cached and no growth will occur), while a strict LRU in the claim's
sense keeps A. -/
theorem C5_counterexample :
    (c5CexCode.get "A").1.isNone = true ∧
    (c5CexClaim.get "A").1.isSome = true :=
  ⟨rfl, rfl⟩

/-- The A, B, get A, C scenario of the claim, run through the code. -/
def c5Scenario : OCRCacheState Nat :=
  (OCRCacheState.put
    ((OCRCacheState.get
      ((OCRCacheState.put
        ((OCRCacheState.put (⟨2, [], 0, 0⟩ : OCRCacheState Nat) "A" 1 []).2)
        "B" 2 []).2)
      "A").2)
    "C" 3 []).2

/-- C5 (amended): the concrete scenario of the claim does hold — with
capacity 2, after inserting A and B, accessing A and inserting C, the
digests A and C are retrievable and B has been evicted.  What fails in
general is the recency rule for puts of an already-cached digest (see
the counterexample): below capacity, such a put updates the entry in
place and does not refresh its position, leaving the key order (and
hence the next eviction victim) unchanged. -/
theorem C5_amended (δ : Type) (s : OCRCacheState δ) (h : String) (d : δ)
    (t : List String) (hlen : s.cache.length < s.maxSize)
    (hmem : s.cache.any (fun p => p.1 == h) = true) :
    ((c5Scenario.get "A").1.isSome = true ∧
     (c5Scenario.get "C").1.isSome = true ∧
     (c5Scenario.get "B").1.isNone = true) ∧
    ((OCRCacheState.put s h d t).2.cache.map Prod.fst =
      s.cache.map Prod.fst) := by
  refine ⟨⟨rfl, rfl, rfl⟩, ?_⟩
  have hno : ¬ s.maxSize ≤ s.cache.length := by omega
  simp only [OCRCacheState.put, if_neg hno]
  rw [if_pos hmem, List.map_map]
  apply List.map_congr_left
  intro p hp
  simp only [Function.comp_apply]
  by_cases hph : p.1 == h
  · rw [if_pos hph]
    exact (eq_of_beq hph).symm
  · rw [if_neg hph]

/-- Witness for the amended C5: a below-capacity put of the cached
digest A keeps the key order `[A]`. -/
theorem C5_amended_witness :
    ((c5Scenario.get "A").1.isSome = true ∧
     (c5Scenario.get "C").1.isSome = true ∧
     (c5Scenario.get "B").1.isNone = true) ∧
    ((OCRCacheState.put
      (⟨2, [("A", ⟨"A", 1, []⟩)], 0, 0⟩ : OCRCacheState Nat) "A" 5 []).2.cache.map
        Prod.fst = ["A"]) :=
  C5_amended Nat ⟨2, [("A", ⟨"A", 1, []⟩)], 0, 0⟩ "A" 5 [] (by decide) (by decide)

/-! ## Claim C4: the retry utility -/

/-- C4: with `max_attempts = 3`, a callable failing on every attempt
with a retryable error makes the wrapper raise Retry-Exhausted with
`attempts == 3` carrying the last underlying error; a callable that
fails retryably once and succeeds on attempt 2 has its result returned
with no third attempt (the outcome does not depend on the callable
beyond attempts 1 and 2). -/
theorem C4_retry_three {ε α : Type} (cfg : RetryConfig ε)
    (f : Nat → Except ε α) (h3 : cfg.maxAttempts = 3) :
    ((∀ n, 1 ≤ n → n ≤ 3 → ∃ e, f n = .error e ∧ cfg.retryOn e = true) →
      ∃ e3, f 3 = .error e3 ∧ runRetry cfg f = .exhausted 3 (some e3)) ∧
    (∀ x, f 2 = .ok x →
      (∃ e1, f 1 = .error e1 ∧ cfg.retryOn e1 = true) →
      runRetry cfg f = .ok x 2 ∧
      ∀ g : Nat → Except ε α, g 1 = f 1 → g 2 = f 2 →
        runRetry cfg g = .ok x 2) := by
  constructor
  · intro hall
    obtain ⟨e1, hf1, hr1⟩ := hall 1 (by omega) (by omega)
    obtain ⟨e2, hf2, hr2⟩ := hall 2 (by omega) (by omega)
    obtain ⟨e3, hf3, hr3⟩ := hall 3 (by omega) (by omega)
    refine ⟨e3, hf3, ?_⟩
    unfold runRetry
    rw [h3]
    simp only [runRetryAux, hf1, hf2, hf3, hr1, hr2, hr3, if_true, h3]
  · intro x hfx he1
    obtain ⟨e1, hf1, hr1⟩ := he1
    constructor
    · unfold runRetry
      rw [h3]
      simp only [runRetryAux, hf1, hfx, hr1, if_true]
    · intro g hg1 hg2
      unfold runRetry
      rw [h3]
      simp only [runRetryAux, hg1, hg2, hf1, hfx, hr1, if_true]

/-! ## Claim C3: multi-candidate disambiguation -/

/-- A digit character that decides the scan of `_pick_best_match`: `0`
(none are correct) or a value within `1..n`. -/
def decidingDigit (n : Nat) (c : Char) : Prop :=
  c.isDigit = true ∧ (c.toNat - 48 = 0 ∨ (1 ≤ c.toNat - 48 ∧ c.toNat - 48 ≤ n))

theorem scanAnswer_cons (n : Nat) (c : Char) (cs : List Char) :
    scanAnswer n (c :: cs) =
      if c.isDigit then
        if c.toNat - 48 = 0 then .noneCorrect
        else if 1 ≤ c.toNat - 48 ∧ c.toNat - 48 ≤ n then .picked (c.toNat - 48 - 1)
        else scanAnswer n cs
      else scanAnswer n cs := rfl

theorem scanAnswer_no_deciding (n : Nat) (l : List Char)
    (h : ∀ c ∈ l, ¬ decidingDigit n c) : scanAnswer n l = .picked 0 := by
  induction l with
  | nil => rfl
  | cons c cs ih =>
    rw [scanAnswer_cons]
    have hc := h c (List.mem_cons_self c cs)
    have ihcs := ih (fun x hx => h x (List.mem_cons_of_mem c hx))
    by_cases hd : c.isDigit
    · rw [if_pos hd]
      have h0 : ¬ (c.toNat - 48 = 0) := fun he => hc ⟨hd, Or.inl he⟩
      have hr : ¬ (1 ≤ c.toNat - 48 ∧ c.toNat - 48 ≤ n) :=
        fun he => hc ⟨hd, Or.inr he⟩
      rw [if_neg h0, if_neg hr]
      exact ihcs
    · rw [if_neg hd]
      exact ihcs

theorem scanAnswer_append (n : Nat) (pre l : List Char)
    (h : ∀ c ∈ pre, ¬ decidingDigit n c) :
    scanAnswer n (pre ++ l) = scanAnswer n l := by
  induction pre with
  | nil => rfl
  | cons c cs ih =>
    rw [List.cons_append, scanAnswer_cons]
    have hc := h c (List.mem_cons_self c cs)
    have ihcs := ih (fun x hx => h x (List.mem_cons_of_mem c hx))
    by_cases hd : c.isDigit
    · rw [if_pos hd]
      have h0 : ¬ (c.toNat - 48 = 0) := fun he => hc ⟨hd, Or.inl he⟩
      have hr : ¬ (1 ≤ c.toNat - 48 ∧ c.toNat - 48 ≤ n) :=
        fun he => hc ⟨hd, Or.inr he⟩
      rw [if_neg h0, if_neg hr]
      exact ihcs
    · rw [if_neg hd]
      exact ihcs

/-- One of three identically shaped disambiguation candidates at
vertical position `y`. -/
def c3Match (y : Int) : OCRMatch := ⟨"Dark".data, ⟨0, y, 50, y + 10⟩, 90, 0, 0⟩

def c3Matches : List OCRMatch := [c3Match 10, c3Match 20, c3Match 30]

/-- C3 counterexample: with three candidates and the vision reply
`"70"`, the claim says the out-of-range first digit `7` falls back to
the topmost candidate; instead, the loop in `_pick_best_match` skips the
out-of-range `7` and keeps scanning, reaches the `0`, and returns `None`
— the locate is forced not-found. -/
theorem C3_counterexample :
    c3Matches.length = 3 ∧
    (pickBestMatch c3Matches (.ok []) (.ok "70".data)).isNone = true :=
  ⟨rfl, rfl⟩

/-- C3 (amended): with several candidates, `_pick_best_match` sorts them
top-to-bottom by `bbox.y1` (stably); it scans the reply for the first
DECIDING digit — `0` or a value in range `1..n` — skipping any other
digit rather than acting on it: a reply with no deciding digit selects
the topmost candidate, a first deciding digit `0` forces not-found
(even when preceded by out-of-range digits), and a first deciding digit
`k` in `1..n` selects the `k`-th sorted candidate. -/
theorem C3_amended (ms : List OCRMatch) (h2 : ¬ ms.length = 1)
    (single : Except Unit (List Char)) (ans : List Char) :
    (List.Sorted (fun m1 m2 => m1.bbox.y1 ≤ m2.bbox.y1) (sortByY ms) ∧
      List.Perm (sortByY ms) ms) ∧
    ((∀ c ∈ pyStrip ans, ¬ decidingDigit (sortByY ms).length c) →
      pickBestMatch ms single (.ok ans) = (sortByY ms).head?) ∧
    (∀ pre rest, pyStrip ans = pre ++ '0' :: rest →
      (∀ c ∈ pre, ¬ decidingDigit (sortByY ms).length c) →
      pickBestMatch ms single (.ok ans) = none) ∧
    (∀ pre d rest, pyStrip ans = pre ++ d :: rest →
      (∀ c ∈ pre, ¬ decidingDigit (sortByY ms).length c) →
      d.isDigit = true → 1 ≤ d.toNat - 48 → d.toNat - 48 ≤ (sortByY ms).length →
      pickBestMatch ms single (.ok ans) =
        (sortByY ms).get? (d.toNat - 48 - 1)) := by
  have hpick : pickBestMatch ms single (.ok ans) =
      match scanAnswer (sortByY ms).length (pyStrip ans) with
      | .noneCorrect => none
      | .picked i => (sortByY ms).get? i := by
    unfold pickBestMatch
    rw [if_neg h2]
  refine ⟨⟨?_, List.perm_insertionSort _ ms⟩, ?_, ?_, ?_⟩
  · haveI : IsTotal OCRMatch (fun m1 m2 => m1.bbox.y1 ≤ m2.bbox.y1) :=
      ⟨fun a b => le_total a.bbox.y1 b.bbox.y1⟩
    haveI : IsTrans OCRMatch (fun m1 m2 => m1.bbox.y1 ≤ m2.bbox.y1) :=
      ⟨fun a b c hab hbc => le_trans hab hbc⟩
    exact List.sorted_insertionSort _ ms
  · intro hnone
    rw [hpick, scanAnswer_no_deciding _ _ hnone]
    show (sortByY ms).get? 0 = (sortByY ms).head?
    cases sortByY ms <;> rfl
  · intro pre rest hsplit hpre
    rw [hpick, hsplit, scanAnswer_append _ _ _ hpre]
    rfl
  · intro pre d rest hsplit hpre hd h1 hn
    have hne0 : ¬ (d.toNat - 48 = 0) := by omega
    rw [hpick, hsplit, scanAnswer_append _ _ _ hpre, scanAnswer_cons,
      if_pos hd, if_neg hne0, if_pos ⟨h1, hn⟩]

/-- Witness for the amended C3: two candidates, reply `"2"` — the digit
2 is deciding and in range, so the second-from-top candidate is
selected. -/
theorem C3_amended_witness :
    ¬ ([c3Match 10, c3Match 20].length = 1) ∧
    pickBestMatch [c3Match 10, c3Match 20] (.error ()) (.ok "2".data) =
      (sortByY [c3Match 10, c3Match 20]).get? ('2'.toNat - 48 - 1) :=
  ⟨by decide,
   (C3_amended [c3Match 10, c3Match 20] (by decide) (.error ()) "2".data).2.2.2
     [] '2' [] rfl (fun c hc => absurd hc (List.not_mem_nil c)) rfl
     (by decide) (by decide)⟩

/-! ## Claim C8: fuzzy-score algebra -/

/-- C8 counterexample: the difflib ratio is not symmetric, because the
occurrence purge (`autojunk` plays no role at these lengths, but the
`b2j` table is built from the second argument only) and the
matching-block search treat the two sides differently:
`_fuzzy_match("ab", "bacb") = 2/3` while `_fuzzy_match("bacb", "ab") =
1/3`. -/
theorem C8_counterexample :
    Difflib.fuzzyMatch "ab".data "bacb".data = 2/3 ∧
    Difflib.fuzzyMatch "bacb".data "ab".data = 1/3 ∧
    ¬ Difflib.fuzzyMatch "ab".data "bacb".data =
        Difflib.fuzzyMatch "bacb".data "ab".data := by
  have hab : Difflib.fuzzyMatch "ab".data "bacb".data = 2/3 := by
    show Difflib.pyRatio (Difflib.lowerStr "ab".data)
      (Difflib.lowerStr "bacb".data) = 2/3
    rw [show Difflib.lowerStr "ab".data = "ab".data from rfl,
      show Difflib.lowerStr "bacb".data = "bacb".data from rfl]
    unfold Difflib.pyRatio
    rw [show "ab".data.length = 2 from rfl, show "bacb".data.length = 4 from rfl,
      show Difflib.matchTotal "ab".data "bacb".data
        (Difflib.purgedB2j "bacb".data) 0 2 0 4 = 2 from by decide]
    norm_num
  have hba : Difflib.fuzzyMatch "bacb".data "ab".data = 1/3 := by
    show Difflib.pyRatio (Difflib.lowerStr "bacb".data)
      (Difflib.lowerStr "ab".data) = 1/3
    rw [show Difflib.lowerStr "bacb".data = "bacb".data from rfl,
      show Difflib.lowerStr "ab".data = "ab".data from rfl]
    unfold Difflib.pyRatio
    rw [show "bacb".data.length = 4 from rfl, show "ab".data.length = 2 from rfl,
      show Difflib.matchTotal "bacb".data "ab".data
        (Difflib.purgedB2j "ab".data) 0 4 0 2 = 1 from by decide]
    norm_num
  refine ⟨hab, hba, ?_⟩
  rw [hab, hba]
  norm_num

/-- C8 (amended): the fuzzy score is bounded and reflexive — for all
strings, `0 ≤ score(a,b) ≤ 1` and `score(x,x) = 1` (reflexivity holds
for every string, including those long enough for the autojunk purge) —
but it is NOT symmetric (see the counterexample). -/
theorem C8_amended (a b x : List Char) :
    0 ≤ Difflib.fuzzyMatch a b ∧ Difflib.fuzzyMatch a b ≤ 1 ∧
    Difflib.fuzzyMatch x x = 1 :=
  ⟨(Difflib.pyRatio_bounds (Difflib.lowerStr a) (Difflib.lowerStr b)).1,
   (Difflib.pyRatio_bounds (Difflib.lowerStr a) (Difflib.lowerStr b)).2,
   Difflib.fuzzyMatch_refl x⟩

/-! ## Claim C10: icon bounding boxes stay in bounds -/

/-- C10: every found result of `IconLocator.locate` carries a bounding
box that is well-ordered and lies inside the original image:
`0 ≤ x1 ≤ x2 ≤ W` and `0 ≤ y1 ≤ y2 ≤ H`, for every cell label the
vision service may return that reaches the bbox-construction path
(the scale factors are quotients of image sizes, hence nonnegative). -/
theorem C10_icon_bbox_in_bounds (reply : VisionReply) (apiW apiH : Nat)
    (scaleX scaleY : ℚ) (offX offY : Int) (W H : Nat)
    (target detectedRegion : String) (hsx : 0 ≤ scaleX) (hsy : 0 ≤ scaleY)
    (hf : (iconLocate reply apiW apiH scaleX scaleY offX offY W H target
      detectedRegion).found = true) :
    ∃ bb, (iconLocate reply apiW apiH scaleX scaleY offX offY W H target
        detectedRegion).bbox = some bb ∧
      0 ≤ bb.x1 ∧ bb.x1 ≤ bb.x2 ∧ bb.x2 ≤ (W : Int) ∧
      0 ≤ bb.y1 ∧ bb.y1 ≤ bb.y2 ∧ bb.y2 ≤ (H : Int) := by
  cases reply with
  | apiError msg => simp [iconLocate] at hf
  | parsed p =>
    cases hc : p.cell with
    | none => simp [iconLocate, hc] at hf
    | some c =>
      by_cases hg : p.found = true ∧ c ≠ []
      · cases hcb : cellToBbox c apiW apiH with
        | error e => simp [iconLocate, hc, hg.1, hg.2, hcb] at hf
        | ok bboxApi =>
          obtain ⟨hxy1, hxy2⟩ := cellToBbox_ordered hcb
          have hb := iconScaleClamp_bounds bboxApi hsx hsy offX offY W H
            hxy1 hxy2
          refine ⟨iconScaleClamp bboxApi scaleX scaleY offX offY W H, ?_,
            hb.1, hb.2.1, hb.2.2.1, hb.2.2.2.1, hb.2.2.2.2.1, hb.2.2.2.2.2⟩
          simp [iconLocate, hc, hg.1, hg.2, hcb]
      · simp [iconLocate, hc, hg] at hf

/-- Witness for C10 at a concrete in-grid cell reply. -/
theorem C10_icon_bbox_in_bounds_witness :
    0 ≤ (1 : ℚ) ∧
    (iconLocate (.parsed ⟨true, some "C2".data, none⟩)
      800 600 1 1 0 0 800 600 "t" "full").found = true ∧
    ∃ bb, (iconLocate (.parsed ⟨true, some "C2".data, none⟩)
        800 600 1 1 0 0 800 600 "t" "full").bbox = some bb ∧
      0 ≤ bb.x1 ∧ bb.x1 ≤ bb.x2 ∧ bb.x2 ≤ (800 : Int) ∧
      0 ≤ bb.y1 ∧ bb.y1 ≤ bb.y2 ∧ bb.y2 ≤ (600 : Int) :=
  ⟨by norm_num, rfl,
   C10_icon_bbox_in_bounds (.parsed ⟨true, some "C2".data, none⟩)
     800 600 1 1 0 0 800 600 "t" "full" (by norm_num) (by norm_num) rfl⟩

/-- Witness for C4 at a concrete always-failing callable: three attempts
are made and the exhausted outcome carries attempt count 3 and the last
error. -/
theorem C4_retry_three_witness :
    runRetry (⟨3, 0, 0, 0, fun _ => true⟩ : RetryConfig Unit)
      (fun _ => (.error () : Except Unit Nat)) = .exhausted 3 (some ()) := by
  obtain ⟨e3, hf3, hrun⟩ :=
    (C4_retry_three (⟨3, 0, 0, 0, fun _ => true⟩ : RetryConfig Unit)
      (fun _ => (.error () : Except Unit Nat)) rfl).1
      (fun n h1 h2 => ⟨(), rfl, rfl⟩)
  cases e3
  exact hrun

/-! ## Claim C7: the Settings end-to-end scenario -/

/-- The single OCR fragment of the scenario: text `"Settings"`, box
`[10, 10, 90, 30]` (left 10, top 10, width 80, height 20),
confidence 91. -/
def settingsData : List OCRWord := [⟨"Settings".data, 10, 10, 80, 20, 91, 1, 1⟩]

theorem c7_matches_eval :
    matchesOf true (8/10) "Settings".data (singleCands settingsData (0, 0)) =
      [⟨"Settings".data, ⟨10, 10, 90, 30⟩, 91, 1,
        1 * (((91 : Int) : ℚ) / 100)⟩] := by
  rw [show singleCands settingsData (0, 0) =
    [⟨"Settings".data, ⟨10, 10, 90, 30⟩, 91, 1⟩] from rfl,
    matchesOf_cons, matchesOf_nil]
  simp only []
  rw [show scoreCand true "Settings".data "Settings".data = 1 from rfl,
    if_pos (show (8 : ℚ)/10 ≤ 1 by norm_num)]
  rfl

theorem c7_result_eval :
    (ocrLocate settingsData "Settings".data (0, 0) true (8/10)).1 =
      ⟨true, some "Settings", some ⟨10, 10, 90, 30⟩, ((91 : Int) : ℚ),
        some .ocr, 0, []⟩ := by
  simp only [ocrLocate]
  rw [if_neg (show ¬ 1 < (pySplit "Settings".data).length from by decide),
    c7_matches_eval]
  rfl

/-- C7 counterexample: the result of the Settings scenario has method
`LocatorMethod.OCR`, whose serialized value is `"ocr"` — not `"text"`;
indeed no `LocatorMethod` member serializes to `"text"`. -/
theorem C7_counterexample :
    ((ocrLocate settingsData "Settings".data (0, 0) true
        (8/10)).1.method.map LocatorMethod.value) = some "ocr" ∧
    ¬ ((ocrLocate settingsData "Settings".data (0, 0) true
        (8/10)).1.method.map LocatorMethod.value) = some "text" ∧
    ∀ m : LocatorMethod, ¬ m.value = "text" := by
  refine ⟨?_, ?_, ?_⟩
  · rw [c7_result_eval]
    rfl
  · rw [c7_result_eval]
    decide
  · intro m
    cases m <;> decide

/-- C7 (amended): for the single OCR fragment
`{text: "Settings", bbox: [10,10,90,30], confidence: 91}`, a locate of
target `"Settings"` (region `"full"`, crop offset `(0, 0)`) returns
found=true with bbox `[10,10,90,30]`, confidence 91, and method `"ocr"`
(the enum member `LocatorMethod.OCR`; the serialization never produces
`"text"`). -/
theorem C7_amended :
    (ocrLocate settingsData "Settings".data (0, 0) true (8/10)).1.found
      = true ∧
    (ocrLocate settingsData "Settings".data (0, 0) true (8/10)).1.element =
      some "Settings" ∧
    (ocrLocate settingsData "Settings".data (0, 0) true (8/10)).1.bbox =
      some ⟨10, 10, 90, 30⟩ ∧
    (ocrLocate settingsData "Settings".data (0, 0) true (8/10)).1.confidence
      = 91 ∧
    (ocrLocate settingsData "Settings".data (0, 0) true (8/10)).1.method =
      some .ocr ∧
    ((ocrLocate settingsData "Settings".data (0, 0) true
        (8/10)).1.method.map LocatorMethod.value) = some "ocr" := by
  refine ⟨?_, ?_, ?_, ?_, ?_, ?_⟩ <;> rw [c7_result_eval]
  · norm_num
  · rfl

/-! ## Claim C6: candidate scoring and ranking -/

/-- The scoring target: 21 characters, a lone `b` splitting two runs of
ten `a`s. -/
def c6Target : List Char := "aaaaaaaaaabaaaaaaaaaa".data

/-- A candidate that strictly contains the target (substring branch,
score 0.95). -/
def c6Sub : List Char := "xaaaaaaaaaabaaaaaaaaaay".data

/-- A 20-character candidate that is neither a substring nor a superset
of the target (fuzzy branch). -/
def c6Fuzzy : List Char := "aaaaaaaaaaaaaaaaaaaa".data

/-- Both candidates recognized at confidence 90, on separate lines. -/
def c6Data : List OCRWord :=
  [⟨c6Sub, 0, 0, 100, 10, 90, 1, 1⟩, ⟨c6Fuzzy, 0, 20, 100, 10, 90, 1, 2⟩]

theorem c6_sub_score : scoreCand true c6Target c6Sub = 19/20 := by
  simp only [scoreCand]
  rw [if_neg (show ¬ Difflib.lowerStr c6Target = Difflib.lowerStr c6Sub
      from by decide),
    if_pos (show inStr (Difflib.lowerStr c6Target) (Difflib.lowerStr c6Sub)
      = true from by decide)]
  norm_num

set_option maxRecDepth 100000 in
theorem c6_fuzzy_ratio : Difflib.fuzzyMatch c6Target c6Fuzzy = 40/41 := by
  show Difflib.pyRatio (Difflib.lowerStr c6Target)
    (Difflib.lowerStr c6Fuzzy) = 40/41
  rw [show Difflib.lowerStr c6Target = c6Target from rfl,
    show Difflib.lowerStr c6Fuzzy = c6Fuzzy from rfl]
  unfold Difflib.pyRatio
  rw [show c6Target.length = 21 from rfl, show c6Fuzzy.length = 20 from rfl,
    show Difflib.matchTotal c6Target c6Fuzzy (Difflib.purgedB2j c6Fuzzy)
      0 21 0 20 = 20 from by decide]
  norm_num

theorem c6_fuzzy_score :
    scoreCand true c6Target c6Fuzzy = Difflib.fuzzyMatch c6Target c6Fuzzy := by
  simp only [scoreCand]
  rw [if_neg (show ¬ Difflib.lowerStr c6Target = Difflib.lowerStr c6Fuzzy
      from by decide),
    if_neg (show ¬ inStr (Difflib.lowerStr c6Target)
      (Difflib.lowerStr c6Fuzzy) = true from by decide),
    if_neg (show ¬ (inStr (Difflib.lowerStr c6Fuzzy)
        (Difflib.lowerStr c6Target) = true ∧
        4 ≤ (Difflib.lowerStr c6Fuzzy).length) from by decide)]
  rfl

theorem c6_matches_eval :
    matchesOf true (8/10) c6Target (singleCands c6Data (0, 0)) =
      [⟨c6Sub, ⟨0, 0, 100, 10⟩, 90, 19/20, 19/20 * (((90 : Int) : ℚ) / 100)⟩,
       ⟨c6Fuzzy, ⟨0, 20, 100, 30⟩, 90, 40/41,
         40/41 * (((90 : Int) : ℚ) / 100)⟩] := by
  rw [show singleCands c6Data (0, 0) =
    [⟨c6Sub, ⟨0, 0, 100, 10⟩, 90, 1⟩, ⟨c6Fuzzy, ⟨0, 20, 100, 30⟩, 90, 1⟩]
    from rfl, matchesOf_cons, matchesOf_cons, matchesOf_nil]
  simp only []
  rw [c6_sub_score, c6_fuzzy_score, c6_fuzzy_ratio,
    if_pos (show (8 : ℚ)/10 ≤ 19/20 by norm_num),
    if_pos (show (8 : ℚ)/10 ≤ 40/41 by norm_num)]
  rfl

theorem c6_result_eval :
    (ocrLocate c6Data c6Target (0, 0) true (8/10)).1.element =
      some (String.mk c6Fuzzy) := by
  simp only [ocrLocate]
  rw [if_neg (show ¬ 1 < (pySplit c6Target).length from by decide),
    c6_matches_eval, sortByWeighted_pair]
  simp only []
  rw [if_neg (show ¬ (40/41 * (((90 : Int) : ℚ) / 100) ≤
      19/20 * (((90 : Int) : ℚ) / 100)) from by norm_num)]
  rfl

/-- C6 counterexample: at equal confidence 90, the substring-scored
candidate (score 0.95) is outranked by a fuzzy-scored candidate whose
ratio 40/41 exceeds 0.95 — the locate returns the fuzzy candidate, so a
substring match does NOT always outrank a fuzzy match. -/
theorem C6_counterexample :
    scoreCand true c6Target c6Sub = 19/20 ∧
    scoreCand true c6Target c6Fuzzy = Difflib.fuzzyMatch c6Target c6Fuzzy ∧
    Difflib.fuzzyMatch c6Target c6Fuzzy = 40/41 ∧
    (19 : ℚ)/20 < 40/41 ∧
    (ocrLocate c6Data c6Target (0, 0) true (8/10)).1.element =
      some (String.mk c6Fuzzy) :=
  ⟨c6_sub_score, c6_fuzzy_score, c6_fuzzy_ratio, by norm_num, c6_result_eval⟩

/-- C6 (amended): the candidate score is exactly the claimed cascade —
1 on exact case-insensitive equality, 0.95 when the target is a
substring of the candidate, 0.85 x (len(candidate)/len(target)) when
the candidate is a substring of the target with at least 4 characters,
otherwise the fuzzy ratio when fuzzy matching is enabled and else 0 —
and candidates are ranked by `weighted_score = score x confidence/100`
alone (stable descending sort).  At equal confidence an exact match
always outranks a substring match (1 > 0.95), but a substring match
does not always outrank a fuzzy match: a fuzzy ratio above 0.95 wins
(see the counterexample). -/
theorem C6_amended (fuzzy : Bool) (target text : List Char) :
    (Difflib.lowerStr target = Difflib.lowerStr text →
      scoreCand fuzzy target text = 1) ∧
    (¬ Difflib.lowerStr target = Difflib.lowerStr text →
      inStr (Difflib.lowerStr target) (Difflib.lowerStr text) = true →
      scoreCand fuzzy target text = 0.95) ∧
    (¬ Difflib.lowerStr target = Difflib.lowerStr text →
      ¬ inStr (Difflib.lowerStr target) (Difflib.lowerStr text) = true →
      inStr (Difflib.lowerStr text) (Difflib.lowerStr target) = true →
      4 ≤ (Difflib.lowerStr text).length →
      scoreCand fuzzy target text =
        0.85 * (((Difflib.lowerStr text).length : ℚ) /
          ((Difflib.lowerStr target).length : ℚ))) ∧
    (¬ Difflib.lowerStr target = Difflib.lowerStr text →
      ¬ inStr (Difflib.lowerStr target) (Difflib.lowerStr text) = true →
      ¬ (inStr (Difflib.lowerStr text) (Difflib.lowerStr target) = true ∧
        4 ≤ (Difflib.lowerStr text).length) →
      scoreCand fuzzy target text =
        if fuzzy then Difflib.fuzzyMatch target text else 0) ∧
    (∀ ms : List OCRMatch,
      List.Sorted (fun a b => b.weightedScore ≤ a.weightedScore)
        (sortByWeighted ms) ∧ List.Perm (sortByWeighted ms) ms) ∧
    (∀ t2 (c : ℚ), 0 < c →
      Difflib.lowerStr target = Difflib.lowerStr text →
      ¬ Difflib.lowerStr target = Difflib.lowerStr t2 →
      inStr (Difflib.lowerStr target) (Difflib.lowerStr t2) = true →
      scoreCand fuzzy target t2 * (c / 100) <
        scoreCand fuzzy target text * (c / 100)) := by
  have hexact : ∀ {x : List Char},
      Difflib.lowerStr target = Difflib.lowerStr x →
      scoreCand fuzzy target x = 1 := by
    intro x h
    simp only [scoreCand]
    rw [if_pos h]
  have hsub : ∀ {x : List Char},
      ¬ Difflib.lowerStr target = Difflib.lowerStr x →
      inStr (Difflib.lowerStr target) (Difflib.lowerStr x) = true →
      scoreCand fuzzy target x = 0.95 := by
    intro x h1 h2
    simp only [scoreCand]
    rw [if_neg h1, if_pos h2]
  refine ⟨fun h => hexact h, fun h1 h2 => hsub h1 h2, ?_, ?_, ?_, ?_⟩
  · intro h1 h2 h3 h4
    simp only [scoreCand]
    rw [if_neg h1, if_neg h2, if_pos ⟨h3, h4⟩]
  · intro h1 h2 h3
    simp only [scoreCand]
    rw [if_neg h1, if_neg h2, if_neg h3]
  · intro ms
    constructor
    · haveI : IsTotal OCRMatch
          (fun a b => b.weightedScore ≤ a.weightedScore) :=
        ⟨fun a b => le_total b.weightedScore a.weightedScore⟩
      haveI : IsTrans OCRMatch
          (fun a b => b.weightedScore ≤ a.weightedScore) :=
        ⟨fun a b c hab hbc => le_trans hbc hab⟩
      exact List.sorted_insertionSort _ ms
    · exact List.perm_insertionSort _ ms
  · intro t2 c hc h1 h2 h3
    rw [hexact h1, hsub h2 h3]
    have hpos : (0 : ℚ) < c / 100 := by positivity
    exact mul_lt_mul_of_pos_right (by norm_num) hpos

/-- Witness for the amended C6: target `"Dark"` against the exact match
`"dark"` and the substring match `"xdarky"`, both at confidence 90 —
the exact match outranks the substring match. -/
theorem C6_amended_witness :
    scoreCand true "Dark".data "xdarky".data * ((90 : ℚ) / 100) <
      scoreCand true "Dark".data "dark".data * ((90 : ℚ) / 100) :=
  (C6_amended true "Dark".data "dark".data).2.2.2.2.2 "xdarky".data 90
    (by norm_num) (by decide) (by decide) (by decide)

end Conu
